import Mathlib

/-!
# zdns: query log, hosts table, reply rendering and resolver failover

Shallow embedding of `sql/logger.go` (the asynchronous query logger) together with
models of the hosts parser, the reply renderer and the proxy failover loop, and the
properties proved about them.
-/

namespace Zdns

/-! ## Library types used by the logger -/

/-- Location attached to a Go `time.Time`. -/
inductive Location where
  | Local
  | UTC
deriving DecidableEq, Repr

/-- Go `time.Duration`: a signed count of nanoseconds. -/
abbrev Duration := Int

/-- Go `time.Time`, as nanoseconds since the Unix epoch plus a location. -/
structure Time where
  unixNano : Int
  loc : Location
deriving DecidableEq, Repr

/-- Go `time.Unix(sec, nsec)`: the local time of the given Unix instant. -/
def Time.Unix (sec nsec : Int) : Time := ⟨sec * 1000000000 + nsec, Location.Local⟩

/-- Go `Time.UTC`: same instant, location set to UTC. -/
def Time.UTC (t : Time) : Time := { t with loc := Location.UTC }

/-- Go `Time.Add`. -/
def Time.Add (t : Time) (d : Duration) : Time := { t with unixNano := t.unixNano + d }

/-- Go `net.IP`: a byte slice. -/
abbrev IP := List Nat

/-- Go `error` values, by message. -/
abbrev Error := String

/-! ## sql/logger.go: data model -/

/-- LogDiscard disables logging of DNS requests. -/
def LogDiscard : Int := 0
/-- LogAll logs all DNS requests. -/
def LogAll : Int := 1
/-- LogHijacked only logs hijacked DNS requests. -/
def LogHijacked : Int := 2

/-- LogEntry represents a log entry for a DNS request. -/
structure LogEntry where
  Time : Time
  RemoteAddr : IP
  Hijacked : Bool
  Qtype : Nat
  Question : String
  Answers : List String
deriving DecidableEq, Repr

/-- Modelled from the spec: the raw row type returned by the store's `readLog`
(declared outside `logger.go`); its fields are exactly those `Logger.Read` accesses.
One row carries one answer of the entry identified by `ID`. -/
structure logRow where
  ID : Int
  Time : Int
  RemoteAddr : IP
  Hijacked : Bool
  Qtype : Nat
  Question : String
  Answer : String
deriving DecidableEq, Repr

/-- Modelled from the spec: the store client used by the logger (declared outside
`logger.go`), as the three operations of the log-sink boundary acting on a world
state `σ` (database contents, wall clock, ...). Each operation may fail. -/
structure Client (σ : Type) where
  writeLog : σ → LogEntry → Option Error × σ
  deleteLogBefore : σ → Time → Option Error × σ
  readLog : σ → Int → Except Error (List logRow) × σ

/-- Buffered Go channel: the buffered values, oldest first, and the capacity. -/
structure Chan (α : Type) where
  buf : List α
  cap : Nat

/-- Go `make(chan α, cap)`. -/
def Chan.make (α : Type) (cap : Nat) : Chan α := ⟨[], cap⟩

/-- Channel send `c <- v`: completes when the buffer has room, otherwise the sender
stays blocked (`none`). -/
def Chan.send {α : Type} (c : Chan α) (v : α) : Option (Chan α) :=
  if c.buf.length < c.cap then some { c with buf := c.buf ++ [v] } else none

/-- Channel receive `<-c`: takes the oldest buffered value, blocks (`none`) when empty. -/
def Chan.recv {α : Type} (c : Chan α) : Option (α × Chan α) :=
  match c.buf with
  | [] => none
  | v :: rest => some (v, { c with buf := rest })

/-- Logger is a logger that logs DNS requests to a SQL database. The field `wg` is
the counter of the `sync.WaitGroup`, which is never negative: a `Done` that would
make it so panics instead. `now` reads the clock of the world. -/
structure Logger (σ : Type) where
  mode : Int
  queue : Chan LogEntry
  client : Client σ
  wg : Nat
  now : σ → Time × σ

/-- Result of a call that may park its goroutine on a channel send. -/
inductive Outcome (σ : Type) where
  /-- the call returned, leaving the logger in state `l` -/
  | returned (l : Logger σ)
  /-- the call is blocked in `l.queue <- e`, the logger being in state `l` -/
  | blocked (l : Logger σ) (e : LogEntry)

/-! ## sql/logger.go: operations -/

/-- NewLogger creates a new logger; `clock` stands for `time.Now`, and the boolean tells
whether the worker goroutine `readQueue(ttl)` was started (`mode != LogDiscard`). -/
def NewLogger {σ : Type} (client : Client σ) (clock : σ → Time × σ) (mode : Int)
    (_ttl : Duration) : Logger σ × Bool :=
  let l : Logger σ :=
    { client := client, queue := Chan.make LogEntry 1024, now := clock, mode := mode, wg := 0 }
  (l, decide (mode ≠ LogDiscard))

/-- Close: `l.wg.Wait()` returns once the counter is zero, then Close returns `nil`;
`none` while the wait is blocked. -/
def Close {σ : Type} (l : Logger σ) : Option (Option Error) :=
  if l.wg = 0 then some none else none

/-- Record records the given DNS request to the log database. -/
def Record {σ : Type} (l : Logger σ) (w : σ) (remoteAddr : IP) (hijacked : Bool)
    (qtype : Nat) (question : String) (answers : List String) : Outcome σ × σ :=
  if l.mode = LogDiscard then (Outcome.returned l, w)
  else if l.mode = LogHijacked ∧ hijacked = false then (Outcome.returned l, w)
  else
    let l1 := { l with wg := l.wg + 1 }
    let (t, w1) := l1.now w
    let e : LogEntry :=
      { Time := t, RemoteAddr := remoteAddr, Hijacked := hijacked, Qtype := qtype,
        Question := question, Answers := answers }
    match l1.queue.send e with
    | some q => (Outcome.returned { l1 with queue := q }, w1)
    | none => (Outcome.blocked l1 e, w1)

/-! ### Read -/

/-- Pointer `&logEntries[idx]` into backing array number `arr`. -/
structure EntryPtr where
  arr : Nat
  idx : Nat
deriving DecidableEq, Repr

/-- Variables of the loop in `Read`: the map `ids`, the backing arrays allocated so far
(each listed up to the length of the slice that used it) and the slice `logEntries`,
given by its backing array `arr` and capacity `cap`; its length is the number of
cells of that array. -/
structure ReadState where
  ids : List (Int × EntryPtr)
  heap : List (List LogEntry)
  arr : Nat
  cap : Nat
deriving Repr

/-- Cells of the slice `logEntries`. -/
def ReadState.logEntries (st : ReadState) : List LogEntry := st.heap.getD st.arr []

/-- Go `logEntries = append(logEntries, e)`: writes in place while the capacity allows,
otherwise copies the cells to a fresh, larger backing array. -/
def ReadState.append (st : ReadState) (e : LogEntry) : ReadState :=
  if st.logEntries.length < st.cap then
    { st with heap := st.heap.set st.arr (st.logEntries ++ [e]) }
  else
    { st with heap := st.heap ++ [st.logEntries ++ [e]], arr := st.heap.length,
              cap := 2 * st.cap + 1 }

/-- Map lookup `ids[id]`. -/
def lookupID (id : Int) : List (Int × EntryPtr) → Option EntryPtr
  | [] => none
  | (k, p) :: rest => if k = id then some p else lookupID id rest

/-- Assignment through a pointer into a backing array: cell `i` becomes `f` of itself. -/
def updateCell (f : LogEntry → LogEntry) : Nat → List LogEntry → List LogEntry
  | _, [] => []
  | 0, e :: rest => f e :: rest
  | i + 1, e :: rest => e :: updateCell f i rest

/-- Go `entry.Answers = append(entry.Answers, a)` through the pointer `p`. -/
def ReadState.appendAnswer (st : ReadState) (p : EntryPtr) (a : String) : ReadState :=
  let cells := updateCell (fun e => { e with Answers := e.Answers ++ [a] }) p.idx
    (st.heap.getD p.arr [])
  { st with heap := st.heap.set p.arr cells }

/-- Body of the loop in `Read` for one raw row `le`. -/
def readRow (st : ReadState) (le : logRow) : ReadState :=
  let found : ReadState × EntryPtr :=
    match lookupID le.ID st.ids with
    | some p => (st, p)
    | none =>
      let newEntry : LogEntry :=
        { Time := (Time.Unix le.Time 0).UTC, RemoteAddr := le.RemoteAddr,
          Hijacked := le.Hijacked, Qtype := le.Qtype, Question := le.Question,
          Answers := [] }
      let st1 := st.append newEntry
      let entry : EntryPtr := ⟨st1.arr, st1.logEntries.length - 1⟩
      ({ st1 with ids := (le.ID, entry) :: st1.ids }, entry)
  if le.Answer ≠ "" then found.1.appendAnswer found.2 le.Answer else found.1

/-- Read returns the n most recent log entries. -/
def Read {σ : Type} (l : Logger σ) (w : σ) (n : Int) : Except Error (List LogEntry) × σ :=
  match l.client.readLog w n with
  | (Except.error err, w1) => (Except.error err, w1)
  | (Except.ok entries, w1) =>
    let st0 : ReadState := { ids := [], heap := [[]], arr := 0, cap := entries.length }
    (Except.ok (entries.foldl readRow st0).logEntries, w1)

/-! ### readQueue -/

/-- Calls made by the worker, in the order made, with the error each returned. -/
inductive Call where
  | writeLog (e : LogEntry) (err : Option Error)
  | deleteLogBefore (t : Time) (err : Option Error)
  | logWriteFailed (e : LogEntry) (err : Error)
  | logDeleteFailed (t : Time) (err : Error)
  | wgDone
deriving DecidableEq, Repr

/-- First statement of the loop body: `writeLog` and the report of its error. -/
def workerWrite {σ : Type} (l : Logger σ) (w : σ) (e : LogEntry) : σ × List Call :=
  match l.client.writeLog w e with
  | (some err, w1) => (w1, [Call.writeLog e (some err), Call.logWriteFailed e err])
  | (none, w1) => (w1, [Call.writeLog e none])

/-- Second statement of the loop body: the retention sweep under `ttl > 0`. -/
def workerSweep {σ : Type} (l : Logger σ) (ttl : Duration) (w : σ) : σ × List Call :=
  if ttl > 0 then
    let r := l.now w
    let t := r.1.Add (-ttl)
    match l.client.deleteLogBefore r.2 t with
    | (some err, w2) => (w2, [Call.deleteLogBefore t (some err), Call.logDeleteFailed t err])
    | (none, w2) => (w2, [Call.deleteLogBefore t none])
  else (w, [])

/-- Last statement of the loop body: `l.wg.Done()`, that is `Add(-1)`. With the counter
at zero the call panics with "sync: negative WaitGroup counter" (`none`). -/
def workerDone {σ : Type} (l : Logger σ) : Option (Logger σ) :=
  if l.wg = 0 then none else some { l with wg := l.wg - 1 }

/-- Body of the loop in `readQueue` for one received entry: the logger it leaves, or
`none` when `Done` panicked, the world it leaves, and the calls it made. -/
def readQueueBody {σ : Type} (l : Logger σ) (ttl : Duration) (w : σ) (e : LogEntry) :
    Option (Logger σ) × σ × List Call :=
  let r1 := workerWrite l w e
  let r2 := workerSweep l ttl r1.1
  (workerDone l, r2.1, r1.2 ++ r2.2 ++ [Call.wgDone])

/-- Loop of `readQueue` over the entries it receives, oldest first; a panic in the
body ends it. -/
def readQueueFrom {σ : Type} (ttl : Duration) :
    Logger σ → σ → List LogEntry → Option (Logger σ) × σ × List Call
  | l, w, [] => (some l, w, [])
  | l, w, e :: rest =>
    let r := readQueueBody { l with queue := { l.queue with buf := rest } } ttl w e
    match r.1 with
    | none => (none, r.2.1, r.2.2)
    | some l1 =>
      let r2 := readQueueFrom ttl l1 r.2.1 rest
      (r2.1, r2.2.1, r.2.2 ++ r2.2.2)

/-- The worker `readQueue(ttl)` run on its own: it receives every buffered entry in
turn and then waits on the empty queue. -/
def readQueue {σ : Type} (l : Logger σ) (ttl : Duration) (w : σ) :
    Option (Logger σ) × σ × List Call :=
  readQueueFrom ttl l w l.queue.buf

/-! ### Read, as the specification words it -/

/-- Rows that are the first of their ID, in row order. -/
def firstRows : List logRow → List logRow
  | [] => []
  | r :: rs => r :: (firstRows rs).filter (fun x => decide (x.ID ≠ r.ID))

/-- Non-empty answers of the rows carrying `id`, in row order. -/
def answersOf (id : Int) (rows : List logRow) : List String :=
  ((rows.filter (fun r => decide (r.ID = id))).map (fun r => r.Answer)).filter
    (fun a => decide (a ≠ ""))

/-- Entry read back for the ID of `r`, a first row: its own fields, and the answers
of all rows of `rows` with its ID. -/
def mergedEntry (rows : List logRow) (r : logRow) : LogEntry :=
  { Time := (Time.Unix r.Time 0).UTC, RemoteAddr := r.RemoteAddr, Hijacked := r.Hijacked,
    Qtype := r.Qtype, Question := r.Question, Answers := answersOf r.ID rows }

/-- Specification of the read-back: one entry per distinct ID, in order of first
occurrence. -/
def mergeRows (rows : List logRow) : List LogEntry :=
  (firstRows rows).map (mergedEntry rows)

/-- Invariant of the loop in `Read` once the rows `done` are processed: `logEntries`
still lives in the backing array allocated by `make`, holds the merge of `done`, and
`ids` maps exactly the IDs seen to the cell of their entry. -/
structure ReadInv (cap : Nat) (done : List logRow) (st : ReadState) : Prop where
  arr_eq : st.arr = 0
  cap_eq : st.cap = cap
  heap_eq : st.heap = [mergeRows done]
  ids_none : ∀ id, lookupID id st.ids = none ↔ id ∉ done.map (fun r => r.ID)
  ids_some : ∀ id p, lookupID id st.ids = some p →
    p.arr = 0 ∧ ((firstRows done).map (fun r => r.ID))[p.idx]? = some id

/-! ### The logger running concurrently: producers, queue and worker -/

/-- Control state of the worker goroutine. -/
inductive Worker where
  /-- no worker was started (`LogDiscard`) -/
  | absent
  /-- at `range l.queue`, waiting for an entry -/
  | idle
  /-- holds `e`, before `writeLog` -/
  | writing (e : LogEntry)
  /-- holds `e`, `writeLog` done, before the retention sweep -/
  | sweeping (e : LogEntry)
  /-- holds `e`, before `l.wg.Done()` -/
  | finishing (e : LogEntry)
  /-- `l.wg.Done()` panicked -/
  | crashed
deriving DecidableEq, Repr

/-- Global state: the logger, the world, the producers parked in `Record`, the worker,
and two histories: the calls the worker made and the entries `Record` sent or is
sending on the queue. -/
structure Sys (σ : Type) where
  logger : Logger σ
  world : σ
  ttl : Duration
  senders : List LogEntry
  worker : Worker
  calls : List Call
  offered : List LogEntry

/-- Entry held by the worker, if any. -/
def Worker.held : Worker → List LogEntry
  | Worker.writing e => [e]
  | Worker.sweeping e => [e]
  | Worker.finishing e => [e]
  | _ => []

/-- Entry held by the worker and not yet passed to `writeLog`. -/
def Worker.unwritten : Worker → List LogEntry
  | Worker.writing e => [e]
  | _ => []

/-- One when the worker holds an entry already written whose sweep is still due. -/
def Worker.awaitingSweep : Worker → Nat
  | Worker.sweeping _ => 1
  | _ => 0

/-- Entries passed to `writeLog` so far. -/
def handed : List Call → List LogEntry
  | [] => []
  | Call.writeLog e _ :: rest => e :: handed rest
  | _ :: rest => handed rest

/-- Entries enqueued or being enqueued that the worker has not finished processing. -/
def Sys.inFlight {σ : Type} (s : Sys σ) : List LogEntry :=
  s.worker.held ++ s.logger.queue.buf ++ s.senders

/-- Entries enqueued or being enqueued that were not yet passed to `writeLog`. -/
def Sys.pending {σ : Type} (s : Sys σ) : List LogEntry :=
  s.worker.unwritten ++ s.logger.queue.buf ++ s.senders

/-- State right after `NewLogger(client, mode, ttl)`. -/
def Sys.init {σ : Type} (client : Client σ) (clock : σ → Time × σ) (mode : Int)
    (ttl : Duration) (w : σ) : Sys σ :=
  let r := NewLogger client clock mode ttl
  { logger := r.1, world := w, ttl := ttl, senders := [],
    worker := if r.2 then Worker.idle else Worker.absent, calls := [], offered := [] }

/-- Entries a call of `Record` put on the queue, or is parked putting on it, given
the queue length before the call. -/
def Outcome.sent {σ : Type} (before : Nat) : Outcome σ → List LogEntry
  | Outcome.returned l => l.queue.buf.drop before
  | Outcome.blocked _ e => [e]

/-- Logger state a call of `Record` leaves behind. -/
def Outcome.logger {σ : Type} : Outcome σ → Logger σ
  | Outcome.returned l => l
  | Outcome.blocked l _ => l

/-- Send a call of `Record` is parked in, if any. -/
def Outcome.parked {σ : Type} : Outcome σ → List LogEntry
  | Outcome.returned _ => []
  | Outcome.blocked _ e => [e]

/-- Effect on the global state of a call of `Record` by some producer. -/
def Sys.record {σ : Type} (s : Sys σ) (remoteAddr : IP) (hijacked : Bool) (qtype : Nat)
    (question : String) (answers : List String) : Sys σ :=
  let r := Record s.logger s.world remoteAddr hijacked qtype question answers
  { s with logger := r.1.logger, world := r.2, senders := s.senders ++ r.1.parked,
           offered := s.offered ++ r.1.sent s.logger.queue.buf.length }

/-- Atomic steps of the running logger. -/
inductive Step {σ : Type} : Sys σ → Sys σ → Prop where
  /-- a producer calls `Record` and runs it up to its return or to a send that finds the
  queue full -/
  | record (s : Sys σ) (remoteAddr : IP) (hijacked : Bool) (qtype : Nat)
      (question : String) (answers : List String) :
      Step s (s.record remoteAddr hijacked qtype question answers)
  /-- a producer is inside `Record`, past `l.wg.Add(1)` and the evaluation of the entry,
  and has not completed the send yet -/
  | enter (s : Sys σ) (remoteAddr : IP) (hijacked : Bool) (qtype : Nat)
      (question : String) (answers : List String) :
      s.logger.mode ≠ LogDiscard → ¬ (s.logger.mode = LogHijacked ∧ hijacked = false) →
      Step s { s with
        logger := { s.logger with wg := s.logger.wg + 1 },
        world := (s.logger.now s.world).2,
        senders := s.senders ++
          [{ Time := (s.logger.now s.world).1, RemoteAddr := remoteAddr, Hijacked := hijacked,
             Qtype := qtype, Question := question, Answers := answers }],
        offered := s.offered ++
          [{ Time := (s.logger.now s.world).1, RemoteAddr := remoteAddr, Hijacked := hijacked,
             Qtype := qtype, Question := question, Answers := answers }] }
  /-- a pending send completes because the queue has room -/
  | unpark (s : Sys σ) (e : LogEntry) (q : Chan LogEntry) :
      e ∈ s.senders → s.logger.queue.send e = some q →
      Step s { s with logger := { s.logger with queue := q }, senders := s.senders.erase e }
  /-- the worker receives the oldest entry -/
  | recv (s : Sys σ) (e : LogEntry) (q : Chan LogEntry) :
      s.worker = Worker.idle → s.logger.queue.recv = some (e, q) →
      Step s { s with logger := { s.logger with queue := q }, worker := Worker.writing e }
  /-- the worker calls `writeLog` -/
  | write (s : Sys σ) (e : LogEntry) :
      s.worker = Worker.writing e →
      Step s { s with world := (workerWrite s.logger s.world e).1,
                      calls := s.calls ++ (workerWrite s.logger s.world e).2,
                      worker := Worker.sweeping e }
  /-- the worker runs the retention sweep -/
  | sweep (s : Sys σ) (e : LogEntry) :
      s.worker = Worker.sweeping e →
      Step s { s with world := (workerSweep s.logger s.ttl s.world).1,
                      calls := s.calls ++ (workerSweep s.logger s.ttl s.world).2,
                      worker := Worker.finishing e }
  /-- the worker calls `l.wg.Done()` and goes back to the queue -/
  | done (s : Sys σ) (e : LogEntry) (l : Logger σ) :
      s.worker = Worker.finishing e → workerDone s.logger = some l →
      Step s { s with logger := l, calls := s.calls ++ [Call.wgDone], worker := Worker.idle }
  /-- the worker calls `l.wg.Done()` with the counter at zero, which panics -/
  | crash (s : Sys σ) (e : LogEntry) :
      s.worker = Worker.finishing e → workerDone s.logger = none →
      Step s { s with calls := s.calls ++ [Call.wgDone], worker := Worker.crashed }
  /-- the world changes on its own (time passes, other clients use the store) -/
  | env (s : Sys σ) (w : σ) : Step s { s with world := w }

/-- States reachable from `s0`. -/
inductive Reachable {σ : Type} (s0 : Sys σ) : Sys σ → Prop where
  | start : Reachable s0 s0
  | step (s t : Sys σ) : Reachable s0 s → Step s t → Reachable s0 t

/-- Invariant of the logger started with `mode`. -/
structure Inv {σ : Type} (mode : Int) (s : Sys σ) : Prop where
  mode_eq : s.logger.mode = mode
  cap_eq : s.logger.queue.cap = 1024
  len_le : s.logger.queue.buf.length ≤ 1024
  wg_eq : s.logger.wg = s.inFlight.length
  perm : List.Perm s.offered (handed s.calls ++ s.pending)
  discard : mode = LogDiscard → s.worker = Worker.absent
  started : mode ≠ LogDiscard → s.worker ≠ Worker.absent
  allowed : mode = LogHijacked → ∀ e ∈ s.offered, e.Hijacked = true
  quiet : mode = LogDiscard → s.offered = []
  alive : s.worker ≠ Worker.crashed

/-! ### Reading the worker's call trace -/

/-- Calls on the store: `writeLog` and `deleteLogBefore`. -/
def Call.isStore : Call → Bool
  | Call.writeLog _ _ => true
  | Call.deleteLogBefore _ _ => true
  | _ => false

/-- Reports written with `log.Printf`. -/
def Call.isReport : Call → Bool
  | Call.logWriteFailed _ _ => true
  | Call.logDeleteFailed _ _ => true
  | _ => false

/-- Cut-offs passed to `deleteLogBefore`, in call order. -/
def deleteCutoffs : List Call → List Time
  | [] => []
  | Call.deleteLogBefore t _ :: rest => t :: deleteCutoffs rest
  | _ :: rest => deleteCutoffs rest

/-- Number of `l.wg.Done()` calls. -/
def doneCount : List Call → Nat
  | [] => 0
  | Call.wgDone :: rest => doneCount rest + 1
  | _ :: rest => doneCount rest

/-- What the store goes through for a queue of entries, as the retention rule words
it: each entry in turn is written and, under a positive retention, the entries before
the clock minus the retention are then deleted. Gives the cut-offs used, in order, and
the world left behind. -/
def sweepTrail {σ : Type} (client : Client σ) (now : σ → Time × σ) (ttl : Duration) :
    σ → List LogEntry → List Time × σ
  | w, [] => ([], w)
  | w, e :: rest =>
    if 0 < ttl then
      ((now (client.writeLog w e).2).1.Add (-ttl) ::
        (sweepTrail client now ttl
          (client.deleteLogBefore (now (client.writeLog w e).2).2
            ((now (client.writeLog w e).2).1.Add (-ttl))).2 rest).1,
       (sweepTrail client now ttl
          (client.deleteLogBefore (now (client.writeLog w e).2).2
            ((now (client.writeLog w e).2).1.Add (-ttl))).2 rest).2)
    else sweepTrail client now ttl (client.writeLog w e).2 rest

/-! ### A concrete run that fills the queue -/

/-- Store over a trivial world: every operation succeeds and nothing is kept. -/
def unitClient : Client Unit :=
  { writeLog := fun w _ => (none, w),
    deleteLogBefore := fun w _ => (none, w),
    readLog := fun w _ => (Except.ok [], w) }

/-- Clock stopped at the epoch. -/
def epochClock : Unit → Time × Unit := fun w => (⟨0, Location.UTC⟩, w)

/-- Entry recorded for an A query for `example.com.` from 192.0.2.100. -/
def sampleEntry : LogEntry :=
  { Time := ⟨0, Location.UTC⟩, RemoteAddr := [192, 0, 2, 100], Hijacked := false, Qtype := 1,
    Question := "example.com.", Answers := ["192.0.2.1"] }

/-- Logger of the concrete run, with `n` entries buffered and counter `k`. -/
def sampleLogger (n : Nat) (k : Nat) : Logger Unit :=
  { mode := LogAll, queue := ⟨List.replicate n sampleEntry, 1024⟩, client := unitClient,
    wg := k, now := epochClock }

/-- State after `n` calls of `Record` in LogAll mode, the worker not having run. -/
def loaded (n : Nat) : Sys Unit :=
  { logger := sampleLogger n n, world := (), ttl := 0, senders := [], worker := Worker.idle,
    calls := [], offered := List.replicate n sampleEntry }

/-- State with the worker holding one entry it has not written yet and the queue
holding 1024 more. -/
def saturated : Sys Unit :=
  { logger := sampleLogger 1024 1025, world := (), ttl := 0, senders := [],
    worker := Worker.writing sampleEntry, calls := [],
    offered := List.replicate 1025 sampleEntry }

/-! ### A concrete store for reading back -/

/-- Raw rows as a store returns them: ID 7 with two answers around a row of ID 9
without answer, then ID 8, then a third answer of ID 7. -/
def sampleRows : List logRow :=
  [ { ID := 7, Time := 1600000000, RemoteAddr := [192, 0, 2, 100], Hijacked := false,
      Qtype := 1, Question := "example.com.", Answer := "192.0.2.1" },
    { ID := 9, Time := 1600000005, RemoteAddr := [192, 0, 2, 101], Hijacked := true,
      Qtype := 28, Question := "badhost1.", Answer := "" },
    { ID := 7, Time := 1600000000, RemoteAddr := [192, 0, 2, 100], Hijacked := false,
      Qtype := 1, Question := "example.com.", Answer := "192.0.2.2" },
    { ID := 8, Time := 1600000003, RemoteAddr := [192, 0, 2, 102], Hijacked := true,
      Qtype := 1, Question := "badhost2.", Answer := "0.0.0.0" },
    { ID := 7, Time := 1600000000, RemoteAddr := [192, 0, 2, 100], Hijacked := false,
      Qtype := 1, Question := "example.com.", Answer := "192.0.2.3" } ]

/-- Store whose `readLog` returns `sampleRows`, or fails when asked for a negative
number of rows. -/
def rowsClient : Client Unit :=
  { writeLog := fun w _ => (none, w),
    deleteLogBefore := fun w _ => (none, w),
    readLog := fun w n => (if n < 0 then Except.error "negative count" else Except.ok sampleRows, w) }

/-- Logger around `rowsClient`, as `NewLogger` makes it in LogAll mode. -/
def rowsLogger : Logger Unit := (NewLogger rowsClient epochClock LogAll 0).1

/-- Store on which every write and every delete fails. -/
def failingClient : Client Unit :=
  { writeLog := fun w _ => (some "database is locked", w),
    deleteLogBefore := fun w _ => (some "database is locked", w),
    readLog := fun w _ => (Except.error "database is locked", w) }

/-- Logger over the failing store, as `NewLogger` makes it in LogAll mode. -/
def failingLogger : Logger Unit := (NewLogger failingClient epochClock LogAll 60).1

/-- Store that keeps in the world every entry written, and on a delete drops the
entries older than the cut-off. -/
def memClient : Client (List LogEntry) :=
  { writeLog := fun w e => (none, w ++ [e]),
    deleteLogBefore := fun w t =>
      (none, w.filter (fun e => decide (t.unixNano ≤ e.Time.unixNano))),
    readLog := fun w _ => (Except.ok [], w) }

/-- Clock stopped at 1000 ns after the epoch. -/
def noonClock : List LogEntry → Time × List LogEntry := fun w => (⟨1000, Location.UTC⟩, w)

/-- Entry persisted long ago, at 100 ns after the epoch. -/
def oldEntry : LogEntry :=
  { Time := ⟨100, Location.UTC⟩, RemoteAddr := [192, 0, 2, 99], Hijacked := true, Qtype := 28,
    Question := "badhost0.", Answers := ["::"] }

/-- Entry `Record` builds at `noonClock` for a hijacked A query for `badhost1.`. -/
def memEntry : LogEntry :=
  { Time := ⟨1000, Location.UTC⟩, RemoteAddr := [192, 0, 2, 100], Hijacked := true, Qtype := 1,
    Question := "badhost1.", Answers := ["0.0.0.0"] }

/-- Logger state a call `Record(192.0.2.100, true, A, "badhost1.", "0.0.0.0")` leaves. -/
def afterRecord {σ : Type} (l : Logger σ) (w : σ) : Logger σ :=
  (Record l w [192, 0, 2, 100] true 1 "badhost1." ["0.0.0.0"]).1.logger

/-- Run over the memory store, started in `mode` with retention `ttl` on a store that
holds `oldEntry`: one `Record` of the hijacked query, then the worker has received the
entry and called `writeLog`. -/
def memWritten (mode : Int) (ttl : Duration) : Sys (List LogEntry) :=
  { logger := { mode := mode, queue := ⟨[], 1024⟩, client := memClient, wg := 1,
                now := noonClock },
    world := [oldEntry, memEntry], ttl := ttl, senders := [],
    worker := Worker.sweeping memEntry, calls := [Call.writeLog memEntry none],
    offered := [memEntry] }

/-- The same run in LogAll mode with a retention of 60 ns, continued until the worker
has swept and called `Done`. -/
def memDrained : Sys (List LogEntry) :=
  { logger := { mode := LogAll, queue := ⟨[], 1024⟩, client := memClient, wg := 0,
                now := noonClock },
    world := [memEntry], ttl := 60, senders := [], worker := Worker.idle,
    calls := [Call.writeLog memEntry none, Call.deleteLogBefore ⟨940, Location.UTC⟩ none,
              Call.wgDone],
    offered := [memEntry] }

/-- Entry `Record` builds at `epochClock` for a hijacked A query for `badhost1.`. -/
def epochEntry : LogEntry :=
  { Time := ⟨0, Location.UTC⟩, RemoteAddr := [192, 0, 2, 100], Hijacked := true, Qtype := 1,
    Question := "badhost1.", Answers := ["0.0.0.0"] }

/-- Run over the failing store in LogAll mode with a retention of 60 ns: one `Record`
of the hijacked query, then the worker has received the entry. -/
def failingHeld : Sys Unit :=
  { logger := { mode := LogAll, queue := ⟨[], 1024⟩, client := failingClient, wg := 1,
                now := epochClock },
    world := (), ttl := 60, senders := [], worker := Worker.writing epochEntry, calls := [],
    offered := [epochEntry] }

/-- Logger over the trivial store, as `NewLogger` makes it in LogHijacked mode. -/
def hijackLogger : Logger Unit := (NewLogger unitClient epochClock LogHijacked 0).1

/-! ## Reply synthesis (dns package) -/

/-- Record type code of A records. -/
def TypeA : Nat := 1
/-- Record type code of AAAA records. -/
def TypeAAAA : Nat := 28
/-- Class code of the Internet class. -/
def ClassINET : Nat := 1

/-- Modelled from the spec: a resource record of a synthesized reply (the record type
of the DNS library, outside `src/`): owner name, TTL, class, type and address. -/
structure RR where
  Name : String
  Ttl : Nat
  Class : Nat
  Rrtype : Nat
  Addr : IP
deriving DecidableEq, Repr

/-- Modelled from the spec: the `Reply` type of the dns package (its source is not
under `src/`): the sequence of synthesized records. -/
structure Reply where
  rr : List RR
deriving DecidableEq, Repr

/-- Modelled from the spec: `ReplyA` (its source is not under `src/`). One record per
address, type A, class IN, fixed TTL of one hour. -/
def ReplyA (name : String) (ipAddrs : List IP) : Reply :=
  ⟨ipAddrs.map (fun ip => { Name := name, Ttl := 3600, Class := ClassINET, Rrtype := TypeA,
                            Addr := ip })⟩

/-- Modelled from the spec: `ReplyAAAA` (its source is not under `src/`). One record
per address, type AAAA, class IN, fixed TTL of one hour. -/
def ReplyAAAA (name : String) (ipAddrs : List IP) : Reply :=
  ⟨ipAddrs.map (fun ip => { Name := name, Ttl := 3600, Class := ClassINET,
                            Rrtype := TypeAAAA, Addr := ip })⟩

/-- Mnemonic of a class code. -/
def classString (c : Nat) : String :=
  if c = ClassINET then "IN" else "CLASS" ++ toString c

/-- Mnemonic of a record type code. -/
def typeString (t : Nat) : String :=
  if t = TypeA then "A" else if t = TypeAAAA then "AAAA" else "TYPE" ++ toString t

/-- Modelled from the spec: the zone-file row of a record,
`name<TAB>ttl<TAB>class<TAB>type<TAB>rdata`; `ipString` renders the address. -/
def RR.String (ipString : IP → String) (r : RR) : String :=
  r.Name ++ "\t" ++ toString r.Ttl ++ "\t" ++ classString r.Class ++ "\t" ++
    typeString r.Rrtype ++ "\t" ++ ipString r.Addr

/-- Modelled from the spec: `Reply.String` (its source is not under `src/`): the rows
of the records, newline-joined. -/
def Reply.String (ipString : IP → String) (r : Reply) : String :=
  String.intercalate "\n" (r.rr.map (RR.String ipString))

/-- Dotted-decimal rendering of the bytes of an IPv4 address. -/
def dottedQuad (ip : IP) : String :=
  String.intercalate "." (ip.map (fun b => toString b))

/-! ## Hosts table (hosts package) -/

/-- Modelled from the spec: the `Parser` of the hosts package (its source is not under
`src/`). A parser is its exclusion set of reserved hostnames; the zero value
`&Parser{}` excludes nothing and is the permissive mode. -/
structure Parser where
  reserved : List String
deriving Repr

/-- Modelled from the spec: the fixed exclusion set of the strict mode, the hostnames
the strict parser is required to hide in `hosts_test.go`. -/
def reservedHostnames : List String :=
  ["localhost", "localhost.localdomain", "local", "broadcasthost", "ip6-localhost",
   "ip6-loopback", "ip6-localnet", "ip6-mcastprefix", "ip6-allnodes", "ip6-allrouters",
   "ip6-allhosts", "0.0.0.0"]

/-- Modelled from the spec: `DefaultParser`, the strict parser. -/
def DefaultParser : Parser := ⟨reservedHostnames⟩

/-- Modelled from the spec: `&Parser{}`, the permissive parser. -/
def permissiveParser : Parser := ⟨[]⟩

/-- Modelled from the spec: the table type of the hosts package: hostnames in order
of first appearance, each with its ordered addresses. -/
abbrev Hosts (α : Type) := List (String × List α)

/-- Lines of a document: the text between newlines. -/
def linesFrom (cur : List Char) : List Char → List (List Char)
  | [] => [cur]
  | c :: cs => if c = '\n' then cur :: linesFrom [] cs else linesFrom (cur ++ [c]) cs

/-- Inline comments: everything from the first `#` is dropped. -/
def stripComment (line : List Char) : List Char :=
  line.takeWhile (fun c => decide (c ≠ '#'))

/-- Whitespace-separated tokens, `cur` being the token under way. -/
def fieldsFrom (cur : List Char) : List Char → List String
  | [] => if cur = [] then [] else [String.mk cur]
  | c :: cs =>
    if c.isWhitespace then
      (if cur = [] then fieldsFrom [] cs else String.mk cur :: fieldsFrom [] cs)
    else fieldsFrom (cur ++ [c]) cs

/-- Modelled from the spec: one line of a hosts document. A valid line is an address
token followed by one or more hostname tokens, once the inline comment is stripped;
any other line is skipped (`none`). -/
def parseLine {α : Type} (parseAddr : String → Option α) (line : List Char) :
    Option (α × List String) :=
  match fieldsFrom [] (stripComment line) with
  | addr :: name :: names => (parseAddr addr).map (fun ip => (ip, name :: names))
  | _ => none

/-- Valid lines of a document, in document order. -/
def validLines {α : Type} (parseAddr : String → Option α) (text : String) :
    List (α × List String) :=
  (linesFrom [] text.data).filterMap (parseLine parseAddr)

/-- Ordered, duplicate-eliminating insertion of an address. -/
def addAddr {α : Type} [DecidableEq α] (addrs : List α) (a : α) : List α :=
  if a ∈ addrs then addrs else addrs ++ [a]

/-- Records address `a` for hostname `name`. -/
def Hosts.insert {α : Type} [DecidableEq α] : Hosts α → String → α → Hosts α
  | [], name, a => [(name, [a])]
  | (k, addrs) :: rest, name, a =>
    if k = name then (k, addAddr addrs a) :: rest
    else (k, addrs) :: Hosts.insert rest name a

/-- Records one valid line: its address under each of its hostnames that the parser
does not exclude. -/
def addLine {α : Type} [DecidableEq α] (p : Parser) (t : Hosts α) (e : α × List String) :
    Hosts α :=
  e.2.foldl (fun acc name => if name ∈ p.reserved then acc else Hosts.insert acc name e.1) t

/-- Modelled from the spec: `Parser.Parse` (its source is not under `src/`). The
source is what reading the document wholesale gave: its text, or a read failure,
which is the only way the parse fails. -/
def Parse {α : Type} [DecidableEq α] (parseAddr : String → Option α) (p : Parser)
    (source : Except Error String) : Except Error (Hosts α) :=
  match source with
  | Except.error err => Except.error err
  | Except.ok text => Except.ok ((validLines parseAddr text).foldl (addLine p) [])

/-- Modelled from the spec: `Hosts.Get` (its source is not under `src/`): the
addresses recorded for the hostname and `true`, or no address and `false`. -/
def Hosts.Get {α : Type} : Hosts α → String → List α × Bool
  | [], _ => ([], false)
  | (k, addrs) :: rest, name => if k = name then (addrs, true) else Hosts.Get rest name

/-- Duplicates eliminated, first occurrences kept in order. -/
def dedupFirst {α : Type} [DecidableEq α] : List α → List α
  | [] => []
  | a :: rest => a :: (dedupFirst rest).filter (fun b => decide (b ≠ a))

/-- Addresses of the valid lines that list `name` among their hostnames, in document
order, duplicates eliminated. -/
def addressesOf {α : Type} [DecidableEq α] (name : String) (entries : List (α × List String)) :
    List α :=
  dedupFirst ((entries.filter (fun e => decide (name ∈ e.2))).map (fun e => e.1))

/-- What splitting a text into lines means: no line holds a newline, and the text is
the lines with one newline between each line and the next. -/
inductive Lines : List Char → List (List Char) → Prop where
  /-- a text without newline is one line -/
  | last (l : List Char) : '\n' ∉ l → Lines l [l]
  /-- a line, a newline, and the lines of the remaining text -/
  | more (l rest : List Char) (ls : List (List Char)) :
      '\n' ∉ l → Lines rest ls → Lines (l ++ '\n' :: rest) (l :: ls)

/-- What splitting on whitespace means: the text is whitespace only and has no token,
or it is whitespace, then a first token that is not empty, holds no whitespace and
ends at a whitespace character or at the end of the text, then a remainder with the
other tokens. -/
inductive Fields : List Char → List String → Prop where
  /-- whitespace only: no token -/
  | blank (ws : List Char) : (∀ c ∈ ws, c.isWhitespace = true) → Fields ws []
  /-- leading whitespace, a token, and the remainder -/
  | token (ws tok rest : List Char) (toks : List String) :
      (∀ c ∈ ws, c.isWhitespace = true) → tok ≠ [] →
      (∀ c ∈ tok, c.isWhitespace = false) →
      (∀ c, rest.head? = some c → c.isWhitespace = true) → Fields rest toks →
      Fields (ws ++ tok ++ rest) (String.mk tok :: toks)

/-- The hosts document of `hosts_test.go`. -/
def testDocument : String :=
  "\n# comment\n\n  # comment with leading whitespace\n\nincomplete-line\n\n" ++
  "127.0.0.1       localhost\n127.0.0.1       localhost.localdomain\n" ++
  "127.0.0.1       local\n255.255.255.255 broadcasthost\n::1             localhost\n" ++
  "::1             ip6-localhost #comment\n::1             ip6-loopback # comment\n" ++
  "fe80::1%lo0     localhost\nff00::0         ip6-localnet\n" ++
  "ff00::0         ip6-mcastprefix\nff02::1         ip6-allnodes\n" ++
  "ff02::2         ip6-allrouters\nff02::3         ip6-allhosts\n" ++
  "0.0.0.0         0.0.0.0\n192.0.2.1       test1 test2 test3\n" ++
  "192.0.2.2       test4\n192.0.2.3       test5\n192.0.2.1       test6\n"

/-- Address parser that accepts every token and keeps it as written. -/
def rawAddr (tok : String) : Option String := some tok

/-! ## Proxy (dns package) -/

/-- Response code of a successful reply. -/
def RcodeSuccess : Nat := 0
/-- Response code "format error". -/
def RcodeFormatError : Nat := 1
/-- Response code "server failure". -/
def RcodeServerFailure : Nat := 2

/-- Modelled from the spec: one question of a DNS message (a type of the DNS library,
outside `src/`): name, type and class. -/
structure Question where
  Name : String
  Qtype : Nat
  Qclass : Nat
deriving DecidableEq, Repr

/-- Modelled from the spec: a decoded DNS message (a type of the DNS library, outside
`src/`), with the accessors the proxy uses: id, flags, response code, questions and
answers. -/
structure Msg where
  Id : Nat
  Response : Bool
  RecursionDesired : Bool
  Rcode : Nat
  Question : List Question
  Answer : List RR
deriving DecidableEq, Repr

/-- Modelled from the spec: the query fingerprint used as cache key. -/
structure Key where
  name : String
  qtype : Nat
  qclass : Nat
deriving DecidableEq, Repr

/-- Modelled from the spec: the structured request given to the handler hook, a name
and a record type. -/
structure Request where
  Name : String
  Qtype : Nat
deriving DecidableEq, Repr

/-- Modelled from the spec: the `Proxy` of the dns package (its source is not under
`src/`): the hijack handler, the answer cache as seen by `Get` when the query is
served, the ordered resolver list and the exchange capability of the client. -/
structure Proxy where
  handler : Request → Option Reply
  cacheGet : Key → Option Msg
  resolvers : List String
  client : Msg → String → Except Error Msg

/-- Modelled from the spec: the resolver failover of section 4.2. Upstreams are tried
in list order; the first successful exchange is returned and ends the loop; when the
list is exhausted the result is a failure. The second component lists the upstreams
consulted, in order. -/
def Exchange (client : Msg → String → Except Error Msg) (query : Msg) :
    List String → Except Error Msg × List String
  | [] => (Except.error "all resolvers failed", [])
  | addr :: rest =>
    match client query addr with
    | Except.ok reply => (Except.ok reply, [addr])
    | Except.error _ => ((Exchange client query rest).1, addr :: (Exchange client query rest).2)

/-- What serving one query produced: the reply written, whether the query was
hijacked, the upstreams consulted and the entry stored in the cache. -/
structure Served where
  reply : Msg
  hijacked : Bool
  consulted : List String
  stored : Option (Key × Msg)
deriving DecidableEq, Repr

/-- Modelled from the spec: `Proxy.ServeDNS` (its source is not under `src/`), the
pipeline of section 4.1: format error for a query without question, hijack check,
cache lookup, upstream failover with cache population, server failure when every
upstream fails. -/
def ServeDNS (p : Proxy) (query : Msg) : Served :=
  match query.Question with
  | [] =>
    ⟨{ query with Response := true, Rcode := RcodeFormatError, Answer := [] }, false, [], none⟩
  | q :: _ =>
    match p.handler ⟨q.Name, q.Qtype⟩ with
    | some reply =>
      ⟨{ query with Response := true, Rcode := RcodeSuccess, Answer := reply.rr }, true, [],
        none⟩
    | none =>
      match p.cacheGet ⟨q.Name, q.Qtype, q.Qclass⟩ with
      | some msg => ⟨{ msg with Id := query.Id }, false, [], none⟩
      | none =>
        match Exchange p.client query p.resolvers with
        | (Except.ok reply, tried) =>
          ⟨reply, false, tried, some (⟨q.Name, q.Qtype, q.Qclass⟩, reply)⟩
        | (Except.error _, tried) =>
          ⟨{ query with Response := true, Rcode := RcodeServerFailure, Answer := [] }, false,
            tried, none⟩

/-- The query of `TestProxyWithResolvers`: an A question for `host1.`, carrying the
answer the test puts in the message it also uses as the upstream reply. -/
def host1Msg (addr : IP) : Msg :=
  { Id := 4711, Response := false, RecursionDesired := false, Rcode := RcodeSuccess,
    Question := [⟨"host1.", TypeA, ClassINET⟩], Answer := (ReplyA "host1" [addr]).rr }

/-- The query built by `assertFailure` for `host1`. -/
def failureQuery : Msg :=
  { Id := 815, Response := false, RecursionDesired := true, Rcode := RcodeSuccess,
    Question := [⟨"host1.", TypeA, ClassINET⟩], Answer := [] }

/-- The `testClient` of `proxy_test.go`: per address, a resolver that fails or gives
its answer. -/
def testClient (resolvers : List (String × Option Msg)) (_query : Msg) (addr : String) :
    Except Error Msg :=
  match resolvers.lookup addr with
  | some (some answer) => Except.ok answer
  | some none => Except.error (addr ++ " SERVFAIL")
  | none => Except.error ("no such resolver: " ++ addr)

/-- Proxy of the tests: no hijack, caching disabled. -/
def testProxy (resolvers : List String) (client : Msg → String → Except Error Msg) : Proxy :=
  { handler := fun _ => none, cacheGet := fun _ => none, resolvers := resolvers,
    client := client }

/-- Proxy whose cache already holds an answer for the A question `host1.`. -/
def cachedProxy : Proxy :=
  { handler := fun _ => none,
    cacheGet := fun k =>
      if k = ⟨"host1.", TypeA, ClassINET⟩ then some (host1Msg [192, 0, 2, 1]) else none,
    resolvers := ["resolver1"],
    client := testClient [("resolver1", some (host1Msg [192, 0, 2, 9]))] }

/-! # Properties -/

/-! ## Record -/

section RecordFacts
variable {σ : Type}

theorem Record_filtered (l : Logger σ) (w : σ) (remoteAddr : IP) (hijacked : Bool)
    (qtype : Nat) (question : String) (answers : List String)
    (h : l.mode = LogDiscard ∨ (l.mode = LogHijacked ∧ hijacked = false)) :
    Record l w remoteAddr hijacked qtype question answers = (Outcome.returned l, w) := by
  unfold Record
  rcases h with h | h
  · simp [h]
  · by_cases h0 : l.mode = LogDiscard
    · simp [h0]
    · simp [h0, h]

theorem Record_room (l : Logger σ) (w : σ) (remoteAddr : IP) (hijacked : Bool)
    (qtype : Nat) (question : String) (answers : List String)
    (h0 : l.mode ≠ LogDiscard) (h1 : ¬ (l.mode = LogHijacked ∧ hijacked = false))
    (hroom : l.queue.buf.length < l.queue.cap) :
    Record l w remoteAddr hijacked qtype question answers =
      (Outcome.returned { l with
          wg := l.wg + 1,
          queue := { l.queue with buf := l.queue.buf ++
            [{ Time := (l.now w).1, RemoteAddr := remoteAddr, Hijacked := hijacked,
               Qtype := qtype, Question := question, Answers := answers }] } },
        (l.now w).2) := by
  unfold Record
  simp only [h0, h1, if_false, Chan.send, hroom, if_true]

theorem Record_full (l : Logger σ) (w : σ) (remoteAddr : IP) (hijacked : Bool)
    (qtype : Nat) (question : String) (answers : List String)
    (h0 : l.mode ≠ LogDiscard) (h1 : ¬ (l.mode = LogHijacked ∧ hijacked = false))
    (hfull : ¬ l.queue.buf.length < l.queue.cap) :
    Record l w remoteAddr hijacked qtype question answers =
      (Outcome.blocked { l with wg := l.wg + 1 }
          { Time := (l.now w).1, RemoteAddr := remoteAddr, Hijacked := hijacked,
            Qtype := qtype, Question := question, Answers := answers },
        (l.now w).2) := by
  unfold Record
  simp only [h0, h1, if_false, Chan.send, hfull]

end RecordFacts

/-! ## Invariants of the running logger -/

section Invariants
variable {σ : Type}

theorem handed_append (a b : List Call) : handed (a ++ b) = handed a ++ handed b := by
  induction a with
  | nil => rfl
  | cons c rest ih => cases c <;> simp [handed, ih]

theorem handed_workerWrite (l : Logger σ) (w : σ) (e : LogEntry) :
    handed (workerWrite l w e).2 = [e] := by
  unfold workerWrite
  split <;> simp [handed]

theorem handed_workerSweep (l : Logger σ) (ttl : Duration) (w : σ) :
    handed (workerSweep l ttl w).2 = [] := by
  unfold workerSweep
  split
  · dsimp only
    split <;> simp [handed]
  · rfl

theorem Inv_init (client : Client σ) (clock : σ → Time × σ) (mode : Int) (ttl : Duration)
    (w : σ) : Inv mode (Sys.init client clock mode ttl w) := by
  by_cases h : mode = LogDiscard
  · constructor <;> simp [Sys.init, NewLogger, Chan.make, Sys.inFlight, Sys.pending, handed,
      Worker.held, Worker.unwritten, h]
  · constructor <;> simp [Sys.init, NewLogger, Chan.make, Sys.inFlight, Sys.pending, handed,
      Worker.held, Worker.unwritten, h]

theorem Inv_record (mode : Int) (s : Sys σ) (remoteAddr : IP) (hijacked : Bool)
    (qtype : Nat) (question : String) (answers : List String) (h : Inv mode s) :
    Inv mode (s.record remoteAddr hijacked qtype question answers) := by
  by_cases hf : s.logger.mode = LogDiscard ∨ (s.logger.mode = LogHijacked ∧ hijacked = false)
  · have hr := Record_filtered s.logger s.world remoteAddr hijacked qtype question answers hf
    have hs : s.record remoteAddr hijacked qtype question answers =
        { s with offered := s.offered ++ [] } := by
      simp [Sys.record, hr, Outcome.logger, Outcome.parked, Outcome.sent]
    rw [hs]
    constructor
    · exact h.mode_eq
    · exact h.cap_eq
    · exact h.len_le
    · exact h.wg_eq
    · simpa using h.perm
    · exact h.discard
    · exact h.started
    · simpa using h.allowed
    · simpa using h.quiet
    · exact h.alive
  · have h0 : s.logger.mode ≠ LogDiscard := fun h0 => hf (Or.inl h0)
    have h1 : ¬ (s.logger.mode = LogHijacked ∧ hijacked = false) := fun h1 => hf (Or.inr h1)
    have hhij : mode = LogHijacked → hijacked = true := by
      intro hm
      cases hh : hijacked
      · exact absurd ⟨h.mode_eq.trans hm, hh⟩ h1
      · rfl
    by_cases hroom : s.logger.queue.buf.length < s.logger.queue.cap
    · have hr := Record_room s.logger s.world remoteAddr hijacked qtype question answers
        h0 h1 hroom
      have hcap := h.cap_eq
      constructor
      · simpa [Sys.record, hr, Outcome.logger] using h.mode_eq
      · simpa [Sys.record, hr, Outcome.logger] using h.cap_eq
      · simp only [Sys.record, hr, Outcome.logger, List.length_append, List.length_singleton]
        omega
      · have := h.wg_eq
        simp only [Sys.inFlight, List.length_append] at this
        simp only [Sys.record, hr, Outcome.logger, Outcome.parked, Sys.inFlight,
          List.length_append, List.length_singleton, List.append_nil, this]
        omega
      · have hp := h.perm
        simp only [Sys.pending] at hp
        simp only [Sys.record, hr, Outcome.logger, Outcome.parked, Outcome.sent, Sys.pending,
          List.append_nil, List.drop_left]
        refine (hp.append_right _).trans ?_
        simp only [List.append_assoc]
        refine List.Perm.append_left _ (List.Perm.append_left _ (List.Perm.append_left _ ?_))
        exact List.perm_append_comm
      · simpa [Sys.record] using h.discard
      · simpa [Sys.record] using h.started
      · intro hm e he
        simp only [Sys.record, hr, Outcome.sent, List.drop_left, List.mem_append,
          List.mem_singleton] at he
        rcases he with he | he
        · exact h.allowed hm e he
        · rw [he]; exact hhij hm
      · intro hm
        exact absurd (h.mode_eq.trans hm) h0
      · simpa [Sys.record] using h.alive
    · have hr := Record_full s.logger s.world remoteAddr hijacked qtype question answers
        h0 h1 hroom
      constructor
      · simpa [Sys.record, hr, Outcome.logger] using h.mode_eq
      · simpa [Sys.record, hr, Outcome.logger] using h.cap_eq
      · simpa [Sys.record, hr, Outcome.logger] using h.len_le
      · have := h.wg_eq
        simp only [Sys.inFlight, List.length_append] at this
        simp only [Sys.record, hr, Outcome.logger, Outcome.parked, Sys.inFlight,
          List.length_append, List.length_singleton, this]
        omega
      · have hp := h.perm
        simp only [Sys.pending] at hp
        simp only [Sys.record, hr, Outcome.logger, Outcome.parked, Outcome.sent, Sys.pending]
        refine (hp.append_right _).trans ?_
        simp only [List.append_assoc]
        exact List.Perm.refl _
      · simpa [Sys.record] using h.discard
      · simpa [Sys.record] using h.started
      · intro hm e he
        simp only [Sys.record, hr, Outcome.sent, List.mem_append, List.mem_singleton] at he
        rcases he with he | he
        · exact h.allowed hm e he
        · rw [he]; exact hhij hm
      · intro hm
        exact absurd (h.mode_eq.trans hm) h0
      · simpa [Sys.record] using h.alive

theorem Inv_step (mode : Int) (s t : Sys σ) (h : Inv mode s) (hst : Step s t) :
    Inv mode t := by
  cases hst with
  | record remoteAddr hijacked qtype question answers =>
    exact Inv_record mode s remoteAddr hijacked qtype question answers h
  | enter remoteAddr hijacked qtype question answers h0 h1 =>
    have hhij : mode = LogHijacked → hijacked = true := by
      intro hm
      cases hh : hijacked
      · exact absurd ⟨h.mode_eq.trans hm, hh⟩ h1
      · rfl
    constructor
    · exact h.mode_eq
    · exact h.cap_eq
    · exact h.len_le
    · have := h.wg_eq
      simp only [Sys.inFlight, List.length_append] at this
      simp only [Sys.inFlight, List.length_append, List.length_singleton, this]
      omega
    · have hp := h.perm
      simp only [Sys.pending] at hp
      simp only [Sys.pending]
      refine (hp.append_right _).trans ?_
      simp only [List.append_assoc]
      exact List.Perm.refl _
    · exact h.discard
    · exact h.started
    · intro hm e he
      simp only [List.mem_append, List.mem_singleton] at he
      rcases he with he | he
      · exact h.allowed hm e he
      · rw [he]; exact hhij hm
    · intro hm
      exact absurd (h.mode_eq.trans hm) h0
    · exact h.alive
  | unpark e q hmem hsend =>
    have hlt : s.logger.queue.buf.length < s.logger.queue.cap := by
      by_contra hc
      simp [Chan.send, hc] at hsend
    have hq : q = { s.logger.queue with buf := s.logger.queue.buf ++ [e] } := by
      simp [Chan.send, hlt] at hsend
      exact hsend.symm
    subst hq
    have hcap := h.cap_eq
    have hlen : (s.senders.erase e).length + 1 = s.senders.length := by
      rw [List.length_erase_of_mem hmem]
      have : 0 < s.senders.length := List.length_pos_of_mem hmem
      omega
    constructor
    · exact h.mode_eq
    · exact h.cap_eq
    · simp only [List.length_append, List.length_singleton]
      omega
    · have := h.wg_eq
      simp only [Sys.inFlight, List.length_append] at this
      simp only [Sys.inFlight, List.length_append, List.length_singleton, this]
      omega
    · have hp := h.perm
      simp only [Sys.pending] at hp
      simp only [Sys.pending]
      refine hp.trans ?_
      simp only [List.append_assoc]
      refine List.Perm.append_left _ (List.Perm.append_left _ (List.Perm.append_left _ ?_))
      exact List.perm_cons_erase hmem
    · exact h.discard
    · exact h.started
    · exact h.allowed
    · exact h.quiet
    · exact h.alive
  | recv e q hidle hrecv =>
    have hb : s.logger.queue.buf = e :: q.buf ∧ q.cap = s.logger.queue.cap := by
      unfold Chan.recv at hrecv
      split at hrecv
      · cases hrecv
      · rename_i v rest hbuf
        cases hrecv
        exact ⟨hbuf, rfl⟩
    constructor
    · exact h.mode_eq
    · simpa [hb.2] using h.cap_eq
    · have := h.len_le
      simp only [hb.1, List.length_cons] at this
      simp only
      omega
    · have := h.wg_eq
      simp only [Sys.inFlight, List.length_append, hidle, hb.1, Worker.held,
        List.length_cons, List.length_nil] at this
      simp only [Sys.inFlight, List.length_append, Worker.held, List.length_singleton, this]
      omega
    · have hp := h.perm
      simp only [Sys.pending, hidle, hb.1, Worker.unwritten, List.nil_append] at hp
      simpa [Sys.pending, Worker.unwritten] using hp
    · intro hm
      have := h.discard hm
      rw [hidle] at this
      cases this
    · intro _ hc
      cases hc
    · exact h.allowed
    · exact h.quiet
    · intro hc
      cases hc
  | write e hw =>
    constructor
    · exact h.mode_eq
    · exact h.cap_eq
    · exact h.len_le
    · have := h.wg_eq
      simp only [Sys.inFlight, hw, Worker.held] at this
      simpa [Sys.inFlight, Worker.held] using this
    · have hp := h.perm
      simp only [Sys.pending, hw, Worker.unwritten] at hp
      simpa [Sys.pending, Worker.unwritten, handed_append, handed_workerWrite] using hp
    · intro hm
      have := h.discard hm
      rw [hw] at this
      cases this
    · intro _ hc
      cases hc
    · exact h.allowed
    · exact h.quiet
    · intro hc
      cases hc
  | sweep e hw =>
    constructor
    · exact h.mode_eq
    · exact h.cap_eq
    · exact h.len_le
    · have := h.wg_eq
      simp only [Sys.inFlight, hw, Worker.held] at this
      simpa [Sys.inFlight, Worker.held] using this
    · have hp := h.perm
      simp only [Sys.pending, hw, Worker.unwritten] at hp
      simpa [Sys.pending, Worker.unwritten, handed_append, handed_workerSweep] using hp
    · intro hm
      have := h.discard hm
      rw [hw] at this
      cases this
    · intro _ hc
      cases hc
    · exact h.allowed
    · exact h.quiet
    · intro hc
      cases hc
  | done e l hw hd =>
    have hwg := h.wg_eq
    simp only [Sys.inFlight, hw, Worker.held, List.length_append, List.length_singleton]
      at hwg
    have hl : l = { s.logger with wg := s.logger.wg - 1 } := by
      unfold workerDone at hd
      split at hd
      · cases hd
      · exact (Option.some.inj hd).symm
    subst hl
    constructor
    · exact h.mode_eq
    · exact h.cap_eq
    · exact h.len_le
    · simp only [Sys.inFlight, Worker.held, List.length_append, List.length_nil, hwg]
      omega
    · have hp := h.perm
      simp only [Sys.pending, hw, Worker.unwritten] at hp
      simpa [Sys.pending, Worker.unwritten, handed_append, handed] using hp
    · intro hm
      have := h.discard hm
      rw [hw] at this
      cases this
    · intro _ hc
      cases hc
    · exact h.allowed
    · exact h.quiet
    · intro hc
      cases hc
  | crash e hw hd =>
    exfalso
    have hwg := h.wg_eq
    simp only [Sys.inFlight, hw, Worker.held, List.length_append, List.length_singleton]
      at hwg
    unfold workerDone at hd
    split at hd
    · omega
    · cases hd
  | env w =>
    exact ⟨h.mode_eq, h.cap_eq, h.len_le, h.wg_eq, h.perm, h.discard, h.started, h.allowed, h.quiet, h.alive⟩

theorem Inv_reachable (client : Client σ) (clock : σ → Time × σ) (mode : Int)
    (ttl : Duration) (w : σ) (s : Sys σ)
    (h : Reachable (Sys.init client clock mode ttl w) s) : Inv mode s := by
  induction h with
  | start => exact Inv_init client clock mode ttl w
  | step s t _ hst ih => exact Inv_step mode s t ih hst

end Invariants

/-! ## The worker -/

section WorkerFacts
variable {σ : Type}

theorem deleteCutoffs_append (a b : List Call) :
    deleteCutoffs (a ++ b) = deleteCutoffs a ++ deleteCutoffs b := by
  induction a with
  | nil => rfl
  | cons c rest ih => cases c <;> simp [deleteCutoffs, ih]

theorem doneCount_append (a b : List Call) :
    doneCount (a ++ b) = doneCount a + doneCount b := by
  induction a with
  | nil => simp [doneCount]
  | cons c rest ih => cases c <;> simp [doneCount, ih, Nat.add_right_comm]

theorem workerWrite_eq (l : Logger σ) (w : σ) (e : LogEntry) :
    workerWrite l w e =
      ((l.client.writeLog w e).2,
       match (l.client.writeLog w e).1 with
       | some err => [Call.writeLog e (some err), Call.logWriteFailed e err]
       | none => [Call.writeLog e none]) := by
  unfold workerWrite
  rcases h : l.client.writeLog w e with ⟨_ | err, w1⟩ <;> rfl

theorem workerSweep_pos (l : Logger σ) (ttl : Duration) (w : σ) (h : 0 < ttl) :
    workerSweep l ttl w =
      ((l.client.deleteLogBefore (l.now w).2 ((l.now w).1.Add (-ttl))).2,
       match (l.client.deleteLogBefore (l.now w).2 ((l.now w).1.Add (-ttl))).1 with
       | some err =>
         [Call.deleteLogBefore ((l.now w).1.Add (-ttl)) (some err),
          Call.logDeleteFailed ((l.now w).1.Add (-ttl)) err]
       | none => [Call.deleteLogBefore ((l.now w).1.Add (-ttl)) none]) := by
  unfold workerSweep
  rw [if_pos h]
  dsimp only
  rcases hd : l.client.deleteLogBefore (l.now w).2 ((l.now w).1.Add (-ttl)) with ⟨_ | err, w1⟩ <;>
    rfl

theorem workerSweep_nonpos (l : Logger σ) (ttl : Duration) (w : σ) (h : ttl ≤ 0) :
    workerSweep l ttl w = (w, []) := by
  unfold workerSweep
  rw [if_neg (not_lt.mpr h)]

/-- The loop body, statement by statement, in terms of the store and the clock. -/
theorem readQueueBody_eq (l : Logger σ) (ttl : Duration) (w : σ) (e : LogEntry) :
    readQueueBody l ttl w e =
      (if l.wg = 0 then none else some { l with wg := l.wg - 1 },
       if 0 < ttl then
         (l.client.deleteLogBefore (l.now (l.client.writeLog w e).2).2
           ((l.now (l.client.writeLog w e).2).1.Add (-ttl))).2
       else (l.client.writeLog w e).2,
       (match (l.client.writeLog w e).1 with
         | some err => [Call.writeLog e (some err), Call.logWriteFailed e err]
         | none => [Call.writeLog e none]) ++
        (if 0 < ttl then
          match (l.client.deleteLogBefore (l.now (l.client.writeLog w e).2).2
              ((l.now (l.client.writeLog w e).2).1.Add (-ttl))).1 with
          | some err =>
            [Call.deleteLogBefore ((l.now (l.client.writeLog w e).2).1.Add (-ttl)) (some err),
             Call.logDeleteFailed ((l.now (l.client.writeLog w e).2).1.Add (-ttl)) err]
          | none =>
            [Call.deleteLogBefore ((l.now (l.client.writeLog w e).2).1.Add (-ttl)) none]
         else []) ++ [Call.wgDone]) := by
  unfold readQueueBody
  simp only [workerWrite_eq, workerDone]
  by_cases h : 0 < ttl
  · simp only [workerSweep_pos l ttl _ h, if_pos h]
  · simp only [workerSweep_nonpos l ttl _ (not_lt.mp h), if_neg h]

theorem readQueueBody_store (l : Logger σ) (ttl : Duration) (w : σ) (e : LogEntry) :
    (readQueueBody l ttl w e).2.2.filter Call.isStore =
      Call.writeLog e (l.client.writeLog w e).1 ::
        (if 0 < ttl then
          [Call.deleteLogBefore ((l.now (l.client.writeLog w e).2).1.Add (-ttl))
            (l.client.deleteLogBefore (l.now (l.client.writeLog w e).2).2
              ((l.now (l.client.writeLog w e).2).1.Add (-ttl))).1]
         else []) := by
  rw [readQueueBody_eq]
  by_cases h : 0 < ttl
  · simp only [if_pos h]
    rcases h1 : (l.client.writeLog w e).1 with _ | err1 <;>
      rcases h2 : (l.client.deleteLogBefore (l.now (l.client.writeLog w e).2).2
          ((l.now (l.client.writeLog w e).2).1.Add (-ttl))).1 with _ | err2 <;>
      simp [Call.isStore]
  · simp only [if_neg h]
    rcases h1 : (l.client.writeLog w e).1 with _ | err1 <;> simp [Call.isStore]

theorem readQueueBody_cutoffs (l : Logger σ) (ttl : Duration) (w : σ) (e : LogEntry) :
    deleteCutoffs (readQueueBody l ttl w e).2.2 =
      if 0 < ttl then [(l.now (l.client.writeLog w e).2).1.Add (-ttl)] else [] := by
  rw [readQueueBody_eq]
  by_cases h : 0 < ttl
  · simp only [if_pos h]
    rcases h1 : (l.client.writeLog w e).1 with _ | err1 <;>
      rcases h2 : (l.client.deleteLogBefore (l.now (l.client.writeLog w e).2).2
          ((l.now (l.client.writeLog w e).2).1.Add (-ttl))).1 with _ | err2 <;>
      simp [deleteCutoffs]
  · simp only [if_neg h]
    rcases h1 : (l.client.writeLog w e).1 with _ | err1 <;> simp [deleteCutoffs]

theorem readQueueBody_handed (l : Logger σ) (ttl : Duration) (w : σ) (e : LogEntry) :
    handed (readQueueBody l ttl w e).2.2 = [e] ∧ doneCount (readQueueBody l ttl w e).2.2 = 1 := by
  rw [readQueueBody_eq]
  by_cases h : 0 < ttl
  · simp only [if_pos h]
    rcases h1 : (l.client.writeLog w e).1 with _ | err1 <;>
      rcases h2 : (l.client.deleteLogBefore (l.now (l.client.writeLog w e).2).2
          ((l.now (l.client.writeLog w e).2).1.Add (-ttl))).1 with _ | err2 <;>
      simp [handed, doneCount]
  · simp only [if_neg h]
    rcases h1 : (l.client.writeLog w e).1 with _ | err1 <;> simp [handed, doneCount]

theorem sweepTrail_length (client : Client σ) (now : σ → Time × σ) (ttl : Duration)
    (es : List LogEntry) :
    ∀ w : σ, (sweepTrail client now ttl w es).1.length = if 0 < ttl then es.length else 0 := by
  induction es with
  | nil => intro w; simp [sweepTrail]
  | cons e rest ih =>
    intro w
    by_cases h : 0 < ttl
    · simp only [sweepTrail, if_pos h, List.length_cons, ih]
    · simp only [sweepTrail, if_neg h, ih]

theorem readQueueFrom_facts (client : Client σ) (now : σ → Time × σ) (ttl : Duration)
    (es : List LogEntry) :
    ∀ (l : Logger σ) (w : σ), l.client = client → l.now = now → l.queue.buf = es →
      es.length ≤ l.wg →
      (readQueueFrom ttl l w es).1 =
          some { l with wg := l.wg - es.length, queue := { l.queue with buf := [] } } ∧
        (readQueueFrom ttl l w es).2.1 = (sweepTrail client now ttl w es).2 ∧
        deleteCutoffs (readQueueFrom ttl l w es).2.2 = (sweepTrail client now ttl w es).1 ∧
        handed (readQueueFrom ttl l w es).2.2 = es ∧
        doneCount (readQueueFrom ttl l w es).2.2 = es.length := by
  induction es with
  | nil =>
    intro l w _ _ hbuf _
    refine ⟨?_, rfl, rfl, rfl, rfl⟩
    cases l with
    | mk mode queue c wg nw =>
      cases queue with
      | mk buf cap =>
        simp only at hbuf
        subst hbuf
        rfl
  | cons e rest ih =>
    intro l w hc hn hbuf hlen
    subst hc hn
    simp only [List.length_cons] at hlen
    have hwg : ¬ l.wg = 0 := by omega
    have hbody := readQueueBody_eq { l with queue := { l.queue with buf := rest } } ttl w e
    simp only [hwg, if_false] at hbody
    have hcut := readQueueBody_cutoffs { l with queue := { l.queue with buf := rest } } ttl w e
    have hhd := readQueueBody_handed { l with queue := { l.queue with buf := rest } } ttl w e
    have hfst : (readQueueBody { l with queue := { l.queue with buf := rest } } ttl w e).1 =
        some { l with queue := { l.queue with buf := rest }, wg := l.wg - 1 } := by
      rw [hbody]
    by_cases h : 0 < ttl
    · have hworld :
          (readQueueBody { l with queue := { l.queue with buf := rest } } ttl w e).2.1 =
            (l.client.deleteLogBefore (l.now (l.client.writeLog w e).2).2
              ((l.now (l.client.writeLog w e).2).1.Add (-ttl))).2 := by
        rw [hbody, if_pos h]
      obtain ⟨h1, h2, h3, h4, h5⟩ :=
        ih { l with queue := { l.queue with buf := rest }, wg := l.wg - 1 }
          (l.client.deleteLogBefore (l.now (l.client.writeLog w e).2).2
            ((l.now (l.client.writeLog w e).2).1.Add (-ttl))).2
          rfl rfl rfl (by simp only; omega)
      rw [if_pos h] at hcut
      refine ⟨?_, ?_, ?_, ?_, ?_⟩
      · simp only [readQueueFrom, hfst, hworld, h1, List.length_cons]
        congr 2
        omega
      · simp only [readQueueFrom, hfst, hworld, h2, sweepTrail, if_pos h]
      · simp only [readQueueFrom, hfst, hworld, deleteCutoffs_append, h3, hcut, sweepTrail,
          if_pos h, List.singleton_append]
      · simp only [readQueueFrom, hfst, hworld, handed_append, h4, hhd.1,
          List.singleton_append]
      · simp only [readQueueFrom, hfst, hworld, doneCount_append, h5, hhd.2,
          List.length_cons]
        omega
    · have hworld :
          (readQueueBody { l with queue := { l.queue with buf := rest } } ttl w e).2.1 =
            (l.client.writeLog w e).2 := by
        rw [hbody, if_neg h]
      obtain ⟨h1, h2, h3, h4, h5⟩ :=
        ih { l with queue := { l.queue with buf := rest }, wg := l.wg - 1 }
          (l.client.writeLog w e).2 rfl rfl rfl (by simp only; omega)
      rw [if_neg h] at hcut
      refine ⟨?_, ?_, ?_, ?_, ?_⟩
      · simp only [readQueueFrom, hfst, hworld, h1, List.length_cons]
        congr 2
        omega
      · simp only [readQueueFrom, hfst, hworld, h2, sweepTrail, if_neg h]
      · simp only [readQueueFrom, hfst, hworld, deleteCutoffs_append, h3, hcut, sweepTrail,
          if_neg h, List.nil_append]
      · simp only [readQueueFrom, hfst, hworld, handed_append, h4, hhd.1,
          List.singleton_append]
      · simp only [readQueueFrom, hfst, hworld, doneCount_append, h5, hhd.2,
          List.length_cons]
        omega

theorem Record_keeps_store (l : Logger σ) (w : σ) (remoteAddr : IP) (hijacked : Bool)
    (qtype : Nat) (question : String) (answers : List String) :
    (Record l w remoteAddr hijacked qtype question answers).1.logger.client = l.client ∧
      (Record l w remoteAddr hijacked qtype question answers).1.logger.now = l.now := by
  by_cases hf : l.mode = LogDiscard ∨ (l.mode = LogHijacked ∧ hijacked = false)
  · rw [Record_filtered l w remoteAddr hijacked qtype question answers hf]
    exact ⟨rfl, rfl⟩
  · have h0 : l.mode ≠ LogDiscard := fun h0 => hf (Or.inl h0)
    have h1 : ¬ (l.mode = LogHijacked ∧ hijacked = false) := fun h1 => hf (Or.inr h1)
    by_cases hroom : l.queue.buf.length < l.queue.cap
    · rw [Record_room l w remoteAddr hijacked qtype question answers h0 h1 hroom]
      exact ⟨rfl, rfl⟩
    · rw [Record_full l w remoteAddr hijacked qtype question answers h0 h1 hroom]
      exact ⟨rfl, rfl⟩

/-- What one step does to the trace of calls and to the world: nothing to the trace,
or it is the worker's `writeLog`, its sweep, or its `Done`. -/
theorem Step_effect (s t : Sys σ) (h : Step s t) :
    t.calls = s.calls ∨
      (∃ e, s.worker = Worker.writing e ∧ t.worker = Worker.sweeping e ∧
        t.world = (s.logger.client.writeLog s.world e).2 ∧
        t.calls = s.calls ++
          (match (s.logger.client.writeLog s.world e).1 with
           | some err => [Call.writeLog e (some err), Call.logWriteFailed e err]
           | none => [Call.writeLog e none])) ∨
      (∃ e, s.worker = Worker.sweeping e ∧ t.worker = Worker.finishing e ∧ 0 < s.ttl ∧
        t.world = (s.logger.client.deleteLogBefore (s.logger.now s.world).2
          ((s.logger.now s.world).1.Add (-s.ttl))).2 ∧
        t.calls = s.calls ++
          (match (s.logger.client.deleteLogBefore (s.logger.now s.world).2
              ((s.logger.now s.world).1.Add (-s.ttl))).1 with
           | some err =>
             [Call.deleteLogBefore ((s.logger.now s.world).1.Add (-s.ttl)) (some err),
              Call.logDeleteFailed ((s.logger.now s.world).1.Add (-s.ttl)) err]
           | none => [Call.deleteLogBefore ((s.logger.now s.world).1.Add (-s.ttl)) none])) ∨
      (∃ e, s.worker = Worker.finishing e ∧ t.calls = s.calls ++ [Call.wgDone]) := by
  cases h with
  | record => exact Or.inl (by simp [Sys.record])
  | enter => exact Or.inl rfl
  | unpark => exact Or.inl rfl
  | recv => exact Or.inl rfl
  | write e hw =>
    refine Or.inr (Or.inl ⟨e, hw, rfl, ?_, ?_⟩)
    · simp only [workerWrite_eq]
    · simp only [workerWrite_eq]
  | sweep e hw =>
    by_cases hpos : 0 < s.ttl
    · refine Or.inr (Or.inr (Or.inl ⟨e, hw, rfl, hpos, ?_, ?_⟩))
      · simp only [workerSweep_pos s.logger s.ttl s.world hpos]
      · simp only [workerSweep_pos s.logger s.ttl s.world hpos]
    · left
      simp only [workerSweep_nonpos s.logger s.ttl s.world (not_lt.mp hpos), List.append_nil]
  | done e l hw _ => exact Or.inr (Or.inr (Or.inr ⟨e, hw, rfl⟩))
  | crash e hw _ => exact Or.inr (Or.inr (Or.inr ⟨e, hw, rfl⟩))
  | env => exact Or.inl rfl

/-- The store, the clock and the retention of a running logger are those it was
started with, and deletes keep pace with writes: under a positive retention every
entry written has had its one delete, except the entry whose sweep is due; under a
zero or negative retention no delete was ever issued. -/
theorem sweep_reachable (client : Client σ) (clock : σ → Time × σ) (mode : Int)
    (ttl : Duration) (w : σ) (s : Sys σ)
    (h : Reachable (Sys.init client clock mode ttl w) s) :
    s.ttl = ttl ∧ s.logger.client = client ∧ s.logger.now = clock ∧
      (0 < ttl →
        (deleteCutoffs s.calls).length + s.worker.awaitingSweep = (handed s.calls).length) ∧
      (ttl ≤ 0 → deleteCutoffs s.calls = []) := by
  induction h with
  | start =>
    refine ⟨rfl, rfl, rfl, ?_, ?_⟩
    · intro _
      by_cases hm : mode = LogDiscard <;>
        simp [Sys.init, NewLogger, hm, deleteCutoffs, handed, Worker.awaitingSweep]
    · intro _
      rfl
  | step s t _ hst ih =>
    obtain ⟨httl, hcl, hnow, hpos, hnon⟩ := ih
    cases hst with
    | record remoteAddr hijacked qtype question answers =>
      have hk := Record_keeps_store s.logger s.world remoteAddr hijacked qtype question answers
      exact ⟨httl, hk.1.trans hcl, hk.2.trans hnow, hpos, hnon⟩
    | enter => exact ⟨httl, hcl, hnow, hpos, hnon⟩
    | unpark => exact ⟨httl, hcl, hnow, hpos, hnon⟩
    | recv e q hidle _ =>
      refine ⟨httl, hcl, hnow, ?_, hnon⟩
      intro h0
      have := hpos h0
      simp only [hidle, Worker.awaitingSweep] at this
      simpa [Worker.awaitingSweep] using this
    | write e hw =>
      refine ⟨httl, hcl, hnow, ?_, ?_⟩
      · intro h0
        have := hpos h0
        simp only [hw, Worker.awaitingSweep] at this
        simp only [workerWrite_eq, deleteCutoffs_append, handed_append, List.length_append,
          Worker.awaitingSweep]
        rcases (s.logger.client.writeLog s.world e).1 with _ | err <;>
          simp [deleteCutoffs, handed] <;> omega
      · intro h0
        have := hnon h0
        simp only [workerWrite_eq, deleteCutoffs_append, this]
        rcases (s.logger.client.writeLog s.world e).1 with _ | err <;> simp [deleteCutoffs]
    | sweep e hw =>
      refine ⟨httl, hcl, hnow, ?_, ?_⟩
      · intro h0
        have := hpos h0
        simp only [hw, Worker.awaitingSweep] at this
        have hp : 0 < s.ttl := by rw [httl]; exact h0
        simp only [workerSweep_pos s.logger s.ttl s.world hp, deleteCutoffs_append,
          handed_append, List.length_append, Worker.awaitingSweep]
        rcases (s.logger.client.deleteLogBefore (s.logger.now s.world).2
            ((s.logger.now s.world).1.Add (-s.ttl))).1 with _ | err <;>
          simp [deleteCutoffs, handed] <;> omega
      · intro h0
        have hp : s.ttl ≤ 0 := by rw [httl]; exact h0
        simp only [workerSweep_nonpos s.logger s.ttl s.world hp, List.append_nil]
        exact hnon h0
    | done e l hw hd =>
      have hl : l = { s.logger with wg := s.logger.wg - 1 } := by
        unfold workerDone at hd
        split at hd
        · cases hd
        · exact (Option.some.inj hd).symm
      subst hl
      refine ⟨httl, hcl, hnow, ?_, ?_⟩
      · intro h0
        have := hpos h0
        simp only [hw, Worker.awaitingSweep] at this
        simpa [deleteCutoffs_append, handed_append, deleteCutoffs, handed,
          Worker.awaitingSweep] using this
      · intro h0
        simp [deleteCutoffs_append, deleteCutoffs, hnon h0]
    | crash e hw _ =>
      refine ⟨httl, hcl, hnow, ?_, ?_⟩
      · intro h0
        have := hpos h0
        simp only [hw, Worker.awaitingSweep] at this
        simpa [deleteCutoffs_append, handed_append, deleteCutoffs, handed,
          Worker.awaitingSweep] using this
      · intro h0
        simp [deleteCutoffs_append, deleteCutoffs, hnon h0]
    | env => exact ⟨httl, hcl, hnow, hpos, hnon⟩

end WorkerFacts

/-! ## A full queue parks Record -/

section FullQueue

theorem sampleLogger_length (n : Nat) (k : Nat) :
    (sampleLogger n k).queue.buf.length = n := by
  simp [sampleLogger]

theorem Record_sample (n : Nat) (k : Nat) (h : n < 1024) :
    Record (sampleLogger n k) () [192, 0, 2, 100] false 1 "example.com." ["192.0.2.1"] =
      (Outcome.returned (sampleLogger (n + 1) (k + 1)), ()) := by
  rw [Record_room _ _ _ _ _ _ _ (by simp [sampleLogger, LogAll, LogDiscard])
    (by simp [sampleLogger, LogAll, LogHijacked]) (by simpa [sampleLogger] using h)]
  simp [sampleLogger, epochClock, sampleEntry, List.replicate_succ']

theorem sample_record (n m : Nat) (k : Nat) (wk : Worker) (h : n < 1024) :
    Sys.record
        { logger := sampleLogger n k, world := (), ttl := 0, senders := [], worker := wk,
          calls := [], offered := List.replicate m sampleEntry }
        [192, 0, 2, 100] false 1 "example.com." ["192.0.2.1"] =
      { logger := sampleLogger (n + 1) (k + 1), world := (), ttl := 0, senders := [],
        worker := wk, calls := [], offered := List.replicate (m + 1) sampleEntry } := by
  simp only [Sys.record, Record_sample n k h, Outcome.logger, Outcome.parked, Outcome.sent]
  simp [sampleLogger, List.replicate_succ']

theorem loaded_record (n : Nat) (h : n < 1024) :
    (loaded n).record [192, 0, 2, 100] false 1 "example.com." ["192.0.2.1"] =
      loaded (n + 1) := by
  simp only [loaded]
  rw [sample_record n n n Worker.idle h]

theorem loaded_reachable (n : Nat) (h : n ≤ 1024) :
    Reachable (Sys.init unitClient epochClock LogAll 0 ()) (loaded n) := by
  induction n with
  | zero => exact Reachable.start
  | succ m ih =>
    have hstep := Step.record (loaded m) [192, 0, 2, 100] false 1 "example.com." ["192.0.2.1"]
    rw [loaded_record m (by omega)] at hstep
    exact Reachable.step _ _ (ih (by omega)) hstep

theorem saturated_reachable :
    Reachable (Sys.init unitClient epochClock LogAll 0 ()) saturated := by
  have h1 := loaded_reachable 1024 (le_refl _)
  have hrecv : (loaded 1024).logger.queue.recv =
      some (sampleEntry, ⟨List.replicate 1023 sampleEntry, 1024⟩) := rfl
  have h2 : Reachable (Sys.init unitClient epochClock LogAll 0 ())
      { logger := sampleLogger 1023 1024, world := (), ttl := 0, senders := [],
        worker := Worker.writing sampleEntry, calls := [],
        offered := List.replicate 1024 sampleEntry } :=
    Reachable.step _ _ h1 (Step.recv (loaded 1024) sampleEntry _ rfl hrecv)
  have h3 := Reachable.step _ _ h2
    (Step.record _ [192, 0, 2, 100] false 1 "example.com." ["192.0.2.1"])
  have heq : Sys.record
      { logger := sampleLogger 1023 1024, world := (), ttl := 0, senders := [],
        worker := Worker.writing sampleEntry, calls := [],
        offered := List.replicate 1024 sampleEntry }
      [192, 0, 2, 100] false 1 "example.com." ["192.0.2.1"] = saturated :=
    sample_record 1023 1024 1024 (Worker.writing sampleEntry) (by omega)
  rw [heq] at h3
  exact h3

theorem Step_calls_grow {σ : Type} (s t : Sys σ) (h : Step s t) :
    ∃ more, t.calls = s.calls ++ more := by
  cases h with
  | record => exact ⟨[], by simp [Sys.record]⟩
  | enter => exact ⟨[], by simp⟩
  | unpark => exact ⟨[], by simp⟩
  | recv => exact ⟨[], by simp⟩
  | write e _ => exact ⟨_, rfl⟩
  | sweep e _ => exact ⟨_, rfl⟩
  | done e l _ _ => exact ⟨_, rfl⟩
  | crash e _ _ => exact ⟨_, rfl⟩
  | env => exact ⟨[], by simp⟩

/-- While the queue is full and the worker still holds an unwritten entry, a parked
sender stays parked: it can only be released after the worker called `writeLog`. -/
theorem parked_until_write {σ : Type} (s : Sys σ) (e : LogEntry) (hs : s.senders ≠ [])
    (hfull : ¬ s.logger.queue.buf.length < s.logger.queue.cap)
    (hw : s.worker = Worker.writing e) (hmode : s.logger.mode = LogAll) :
    ∀ t, Reachable s t →
      handed t.calls ≠ [] ∨
        (t.senders ≠ [] ∧ ¬ t.logger.queue.buf.length < t.logger.queue.cap ∧
          t.worker = Worker.writing e ∧ t.logger.mode = LogAll) := by
  intro t ht
  induction ht with
  | start => exact Or.inr ⟨hs, hfull, hw, hmode⟩
  | step u v _ huv ih =>
    rcases ih with ih | ⟨h1, h2, h3, h4⟩
    · obtain ⟨more, hmore⟩ := Step_calls_grow u v huv
      left
      rw [hmore, handed_append]
      intro hnil
      exact ih (List.append_eq_nil.mp hnil).1
    · cases huv with
      | record remoteAddr hijacked qtype question answers =>
        right
        have h0 : u.logger.mode ≠ LogDiscard := by rw [h4]; decide
        have h5 : ¬ (u.logger.mode = LogHijacked ∧ hijacked = false) := by
          rw [h4]; rintro ⟨hc, _⟩; revert hc; decide
        have hr := Record_full u.logger u.world remoteAddr hijacked qtype question answers
          h0 h5 h2
        refine ⟨?_, ?_, ?_, ?_⟩
        · simp [Sys.record, hr, Outcome.parked]
        · simpa [Sys.record, hr, Outcome.logger] using h2
        · simpa [Sys.record] using h3
        · simpa [Sys.record, hr, Outcome.logger] using h4
      | enter remoteAddr hijacked qtype question answers _ _ =>
        exact Or.inr ⟨by simp, h2, h3, h4⟩
      | unpark e1 q _ hsend =>
        exfalso
        simp [Chan.send, h2] at hsend
      | recv e1 q hidle _ =>
        rw [h3] at hidle
        cases hidle
      | write e1 _ =>
        left
        simp [handed_append, handed_workerWrite]
      | sweep e1 hsw =>
        rw [h3] at hsw
        cases hsw
      | done e1 l1 hd _ =>
        rw [h3] at hd
        cases hd
      | crash e1 hd _ =>
        rw [h3] at hd
        cases hd
      | env w => exact Or.inr ⟨h1, h2, h3, h4⟩

/-- C7, as stated, fails: the state `saturated` is reachable in LogAll mode, its queue
holds 1024 entries, the worker holds one more entry that it has not yet passed to
`writeLog`; there a call of Record does not return but parks in the channel send, and
in every continuation in which no sender is parked any more the worker has called
`writeLog` in between. -/
theorem Record_parks_on_full_queue :
    Reachable (Sys.init unitClient epochClock LogAll 0 ()) saturated ∧
      saturated.logger.queue.buf.length = 1024 ∧
      saturated.worker = Worker.writing sampleEntry ∧
      handed saturated.calls = [] ∧
      Record saturated.logger saturated.world [192, 0, 2, 100] false 1 "example.com."
          ["192.0.2.1"] =
        (Outcome.blocked (sampleLogger 1024 1026) sampleEntry, ()) ∧
      (∀ t, Reachable
            (saturated.record [192, 0, 2, 100] false 1 "example.com." ["192.0.2.1"]) t →
          t.senders = [] → handed t.calls ≠ []) := by
  have hlen : saturated.logger.queue.buf.length = 1024 := sampleLogger_length 1024 1025
  have hfull : ¬ saturated.logger.queue.buf.length < saturated.logger.queue.cap := by
    rw [hlen]
    show ¬ 1024 < 1024
    decide
  have hmode : saturated.logger.mode = LogAll := rfl
  have h0 : saturated.logger.mode ≠ LogDiscard := by rw [hmode]; decide
  have h1 : ¬ (saturated.logger.mode = LogHijacked ∧ false = false) := by
    rw [hmode]; rintro ⟨hc, _⟩; revert hc; decide
  have hr := Record_full saturated.logger saturated.world [192, 0, 2, 100] false 1
    "example.com." ["192.0.2.1"] h0 h1 hfull
  refine ⟨saturated_reachable, hlen, rfl, rfl, ?_, ?_⟩
  · rw [hr]
    rfl
  · intro t ht hsend
    have hp := parked_until_write
      (saturated.record [192, 0, 2, 100] false 1 "example.com." ["192.0.2.1"]) sampleEntry
      (by simp [Sys.record, hr, Outcome.parked])
      (by simp only [Sys.record, hr, Outcome.logger]; exact hfull)
      rfl
      (by simp only [Sys.record, hr, Outcome.logger]; exact hmode)
      t ht
    rcases hp with hp | hp
    · exact hp
    · exact absurd hsend hp.1

/-- C7, amended: in every reachable state the queue has capacity 1024; a call of
Record returns at once when the query is filtered out by the mode or the queue holds
fewer than 1024 entries, and otherwise, the queue being full, it parks in the send.
A parked send can complete as soon as the queue holds fewer than 1024 entries, and
cannot while it holds 1024. -/
theorem Record_returns_unless_full {σ : Type} (client : Client σ) (clock : σ → Time × σ)
    (mode : Int) (ttl : Duration) (w : σ) (s : Sys σ)
    (h : Reachable (Sys.init client clock mode ttl w) s)
    (remoteAddr : IP) (hijacked : Bool) (qtype : Nat) (question : String)
    (answers : List String) :
    s.logger.queue.cap = 1024 ∧ s.logger.queue.buf.length ≤ 1024 ∧
      ((s.logger.mode = LogDiscard ∨ (s.logger.mode = LogHijacked ∧ hijacked = false) ∨
          s.logger.queue.buf.length < 1024) →
        ∃ l1, (Record s.logger s.world remoteAddr hijacked qtype question answers).1 =
          Outcome.returned l1) ∧
      (¬ (s.logger.mode = LogDiscard ∨ (s.logger.mode = LogHijacked ∧ hijacked = false)) →
        s.logger.queue.buf.length = 1024 →
        ∃ l1 e, (Record s.logger s.world remoteAddr hijacked qtype question answers).1 =
          Outcome.blocked l1 e) ∧
      (∀ e ∈ s.senders, s.logger.queue.buf.length < 1024 →
        ∃ t, Step s t ∧ t.senders = s.senders.erase e ∧
          t.logger.queue.buf = s.logger.queue.buf ++ [e]) ∧
      (s.logger.queue.buf.length = 1024 → ∀ e, s.logger.queue.send e = none) := by
  have hinv := Inv_reachable client clock mode ttl w s h
  have hcap := hinv.cap_eq
  refine ⟨hcap, hinv.len_le, ?_, ?_, ?_, ?_⟩
  · intro hc
    by_cases hf : s.logger.mode = LogDiscard ∨ (s.logger.mode = LogHijacked ∧ hijacked = false)
    · exact ⟨_, by rw [Record_filtered _ _ _ _ _ _ _ hf]⟩
    · have hroom : s.logger.queue.buf.length < s.logger.queue.cap := by
        rcases hc with hc | hc | hc
        · exact absurd (Or.inl hc) hf
        · exact absurd (Or.inr hc) hf
        · omega
      exact ⟨_, by rw [Record_room _ _ _ _ _ _ _ (fun h0 => hf (Or.inl h0))
        (fun h1 => hf (Or.inr h1)) hroom]⟩
  · intro hf hlen
    exact ⟨_, _, by rw [Record_full _ _ _ _ _ _ _ (fun h0 => hf (Or.inl h0))
      (fun h1 => hf (Or.inr h1)) (by omega)]⟩
  · intro e he hlen
    have hsend : s.logger.queue.send e =
        some { s.logger.queue with buf := s.logger.queue.buf ++ [e] } := by
      simp [Chan.send, hcap, hlen]
    exact ⟨_, Step.unpark s e _ he hsend, rfl, rfl⟩
  · intro hlen e
    simp [Chan.send, hcap, hlen]

theorem Record_returns_unless_full_witness :
    Reachable (Sys.init unitClient epochClock LogAll 0 ()) (loaded 3) ∧
      (loaded 3).logger.queue.buf.length < 1024 ∧
      ∃ l1, (Record (loaded 3).logger (loaded 3).world [192, 0, 2, 100] false 1
        "example.com." ["192.0.2.1"]).1 = Outcome.returned l1 :=
  ⟨loaded_reachable 3 (by decide), by decide,
   (Record_returns_unless_full unitClient epochClock LogAll 0 () (loaded 3)
      (loaded_reachable 3 (by decide)) [192, 0, 2, 100] false 1 "example.com."
      ["192.0.2.1"]).2.2.1 (Or.inr (Or.inr (by decide)))⟩

end FullQueue

/-! ## The running logger: Record, Close and the worker -/

section RunningLogger

theorem memWritten_reachable (mode : Int) (ttl : Duration)
    (hmode : mode = LogAll ∨ mode = LogHijacked) :
    Reachable (Sys.init memClient noonClock mode ttl [oldEntry]) (memWritten mode ttl) := by
  have h0 : mode ≠ LogDiscard := by
    rcases hmode with h | h <;> rw [h] <;> decide
  have h1 : ¬ (mode = LogHijacked ∧ true = false) := fun hc => Bool.noConfusion hc.2
  have hinit : Sys.init memClient noonClock mode ttl [oldEntry] =
      { logger := { mode := mode, queue := ⟨[], 1024⟩, client := memClient, wg := 0,
                    now := noonClock },
        world := [oldEntry], ttl := ttl, senders := [], worker := Worker.idle, calls := [],
        offered := [] } := by
    simp [Sys.init, NewLogger, Chan.make, h0]
  have hrec : Sys.record (Sys.init memClient noonClock mode ttl [oldEntry])
      [192, 0, 2, 100] true 1 "badhost1." ["0.0.0.0"] =
      { logger := { mode := mode, queue := ⟨[memEntry], 1024⟩, client := memClient, wg := 1,
                    now := noonClock },
        world := [oldEntry], ttl := ttl, senders := [], worker := Worker.idle, calls := [],
        offered := [memEntry] } := by
    rw [hinit]
    simp only [Sys.record]
    rw [Record_room _ _ _ _ _ _ _ h0 h1 (by simp)]
    rfl
  have s1 := Reachable.step _ _ Reachable.start
    (Step.record (Sys.init memClient noonClock mode ttl [oldEntry])
      [192, 0, 2, 100] true 1 "badhost1." ["0.0.0.0"])
  rw [hrec] at s1
  have s2 := Reachable.step _ _ s1 (Step.recv _ memEntry ⟨[], 1024⟩ rfl rfl)
  exact Reachable.step _ _ s2 (Step.write _ memEntry rfl)

theorem memDrained_reachable :
    Reachable (Sys.init memClient noonClock LogAll 60 [oldEntry]) memDrained := by
  have s3 := memWritten_reachable LogAll 60 (Or.inl rfl)
  have s4 := Reachable.step _ _ s3 (Step.sweep _ memEntry rfl)
  exact Reachable.step _ _ s4
    (Step.done _ memEntry
      { mode := LogAll, queue := ⟨[], 1024⟩, client := memClient, wg := 0, now := noonClock }
      rfl rfl)

/-- C1: for a logger whose mode is LogDiscard, LogAll or LogHijacked, a call of Record
sends on the queue exactly when the mode is LogAll, or LogHijacked with a hijacked
query, and then sends exactly one entry, made of the arguments unchanged and the time
read from the logger's clock. In LogDiscard mode, and in LogHijacked mode for a query
that is not hijacked, the call returns with the logger and the world untouched. When
it sends and the queue has room, the call returns with that entry appended to the
queue and the counter raised by one; when the queue is full it is parked in the send
of that entry, which a queue with room accepts by appending it. Hence, in every state
reached by a logger started in LogHijacked mode, every entry parked, queued or passed
to `writeLog` is a hijacked one; a logger started in LogDiscard mode never holds an
entry anywhere; and every entry passed to `writeLog` was sent by Record. A call of
Record is a step of the running logger that leaves the logger and the world as Record
returns them and touches neither the worker nor its calls. -/
theorem Record_enqueues_iff {σ : Type} (l : Logger σ) (w : σ) (remoteAddr : IP)
    (hijacked : Bool) (qtype : Nat) (question : String) (answers : List String)
    (hmode : l.mode = LogDiscard ∨ l.mode = LogAll ∨ l.mode = LogHijacked)
    (client : Client σ) (clock : σ → Time × σ) (mode : Int) (ttl : Duration) (w0 : σ)
    (s : Sys σ) (hreach : Reachable (Sys.init client clock mode ttl w0) s) :
    (Record l w remoteAddr hijacked qtype question answers).1.sent l.queue.buf.length =
        (if l.mode = LogAll ∨ (l.mode = LogHijacked ∧ hijacked = true) then
          [{ Time := (l.now w).1, RemoteAddr := remoteAddr, Hijacked := hijacked,
             Qtype := qtype, Question := question, Answers := answers }]
        else []) ∧
      (l.mode = LogDiscard ∨ (l.mode = LogHijacked ∧ hijacked = false) →
        Record l w remoteAddr hijacked qtype question answers = (Outcome.returned l, w)) ∧
      (l.mode = LogAll ∨ (l.mode = LogHijacked ∧ hijacked = true) →
        l.queue.buf.length < l.queue.cap →
        Record l w remoteAddr hijacked qtype question answers =
          (Outcome.returned { l with
              wg := l.wg + 1,
              queue := { l.queue with buf := l.queue.buf ++
                [{ Time := (l.now w).1, RemoteAddr := remoteAddr, Hijacked := hijacked,
                   Qtype := qtype, Question := question, Answers := answers }] } },
            (l.now w).2)) ∧
      (l.mode = LogAll ∨ (l.mode = LogHijacked ∧ hijacked = true) →
        ¬ l.queue.buf.length < l.queue.cap →
        Record l w remoteAddr hijacked qtype question answers =
          (Outcome.blocked { l with wg := l.wg + 1 }
              { Time := (l.now w).1, RemoteAddr := remoteAddr, Hijacked := hijacked,
                Qtype := qtype, Question := question, Answers := answers },
            (l.now w).2)) ∧
      (∀ (q : Chan LogEntry) (v : LogEntry),
        (q.buf.length < q.cap → q.send v = some { q with buf := q.buf ++ [v] }) ∧
          (¬ q.buf.length < q.cap → q.send v = none)) ∧
      (mode = LogHijacked →
        ∀ x ∈ s.senders ++ s.logger.queue.buf ++ handed s.calls, x.Hijacked = true) ∧
      (mode = LogDiscard →
        s.senders = [] ∧ s.logger.queue.buf = [] ∧ handed s.calls = []) ∧
      (∀ x ∈ handed s.calls, x ∈ s.offered) ∧
      (∃ t, Step s t ∧
        t.logger = (Record s.logger s.world remoteAddr hijacked qtype question answers).1.logger ∧
        t.world = (Record s.logger s.world remoteAddr hijacked qtype question answers).2 ∧
        t.senders = s.senders ++
          (Record s.logger s.world remoteAddr hijacked qtype question answers).1.parked ∧
        t.worker = s.worker ∧ t.calls = s.calls) := by
  have hinv := Inv_reachable client clock mode ttl w0 s hreach
  have hsub : ∀ x ∈ s.senders ++ s.logger.queue.buf ++ handed s.calls, x ∈ s.offered := by
    intro x hx
    apply hinv.perm.symm.subset
    simp only [Sys.pending, List.mem_append] at hx ⊢
    rcases hx with (hx | hx) | hx
    · exact Or.inr (Or.inr hx)
    · exact Or.inr (Or.inl (Or.inr hx))
    · exact Or.inl hx
  have hpass : (l.mode = LogAll ∨ (l.mode = LogHijacked ∧ hijacked = true)) →
      l.mode ≠ LogDiscard ∧ ¬ (l.mode = LogHijacked ∧ hijacked = false) := by
    intro hsend
    constructor
    · rcases hsend with h | ⟨h, _⟩ <;> rw [h] <;> decide
    · rintro ⟨hm, hh⟩
      rcases hsend with h | ⟨_, h⟩
      · rw [h] at hm; revert hm; decide
      · rw [h] at hh; cases hh
  refine ⟨?_, Record_filtered l w remoteAddr hijacked qtype question answers, ?_, ?_, ?_, ?_,
    ?_, ?_, ⟨_, Step.record s remoteAddr hijacked qtype question answers, rfl, rfl, rfl, rfl,
      rfl⟩⟩
  · by_cases hsend : l.mode = LogAll ∨ (l.mode = LogHijacked ∧ hijacked = true)
    · obtain ⟨h0, h1⟩ := hpass hsend
      rw [if_pos hsend]
      by_cases hroom : l.queue.buf.length < l.queue.cap
      · rw [Record_room l w remoteAddr hijacked qtype question answers h0 h1 hroom]
        simp [Outcome.sent]
      · rw [Record_full l w remoteAddr hijacked qtype question answers h0 h1 hroom]
        simp [Outcome.sent]
    · have hf : l.mode = LogDiscard ∨ (l.mode = LogHijacked ∧ hijacked = false) := by
        rcases hmode with h | h | h
        · exact Or.inl h
        · exact absurd (Or.inl h) hsend
        · cases hh : hijacked
          · exact Or.inr ⟨h, rfl⟩
          · exact absurd (Or.inr ⟨h, hh⟩) hsend
      rw [if_neg hsend, Record_filtered l w remoteAddr hijacked qtype question answers hf]
      simp [Outcome.sent]
  · intro hsend hroom
    exact Record_room l w remoteAddr hijacked qtype question answers (hpass hsend).1
      (hpass hsend).2 hroom
  · intro hsend hfull
    exact Record_full l w remoteAddr hijacked qtype question answers (hpass hsend).1
      (hpass hsend).2 hfull
  · intro q v
    constructor
    · intro hroom
      simp [Chan.send, hroom]
    · intro hfull
      simp [Chan.send, hfull]
  · intro hm x hx
    exact hinv.allowed hm x (hsub x hx)
  · intro hm
    have hnil : ∀ x, x ∉ s.senders ++ s.logger.queue.buf ++ handed s.calls := by
      intro x hx
      have := hsub x hx
      rw [hinv.quiet hm] at this
      cases this
    have hall := List.eq_nil_iff_forall_not_mem.mpr hnil
    simp only [List.append_eq_nil] at hall
    exact ⟨hall.1.1, hall.1.2, hall.2⟩
  · intro x hx
    exact hsub x (List.mem_append_right _ hx)

theorem Record_enqueues_iff_witness :
    ((memWritten LogHijacked 60).logger.mode = LogDiscard ∨
        (memWritten LogHijacked 60).logger.mode = LogAll ∨
        (memWritten LogHijacked 60).logger.mode = LogHijacked) ∧
      Reachable (Sys.init memClient noonClock LogHijacked 60 [oldEntry])
        (memWritten LogHijacked 60) ∧
      Record (memWritten LogHijacked 60).logger (memWritten LogHijacked 60).world
          [192, 0, 2, 100] true 1 "badhost1." ["0.0.0.0"] =
        (Outcome.returned
          { mode := LogHijacked, queue := ⟨[memEntry], 1024⟩, client := memClient, wg := 2,
            now := noonClock }, [oldEntry, memEntry]) ∧
      Record (memWritten LogHijacked 60).logger (memWritten LogHijacked 60).world
          [192, 0, 2, 100] false 1 "example.com." ["192.0.2.1"] =
        (Outcome.returned (memWritten LogHijacked 60).logger, [oldEntry, memEntry]) ∧
      handed (memWritten LogHijacked 60).calls = [memEntry] ∧
      (∀ x ∈ (memWritten LogHijacked 60).senders ++ (memWritten LogHijacked 60).logger.queue.buf ++
          handed (memWritten LogHijacked 60).calls, x.Hijacked = true) :=
  ⟨Or.inr (Or.inr rfl), memWritten_reachable LogHijacked 60 (Or.inr rfl),
   ((Record_enqueues_iff (memWritten LogHijacked 60).logger (memWritten LogHijacked 60).world
      [192, 0, 2, 100] true 1 "badhost1." ["0.0.0.0"] (Or.inr (Or.inr rfl))
      memClient noonClock LogHijacked 60 [oldEntry] (memWritten LogHijacked 60)
      (memWritten_reachable LogHijacked 60 (Or.inr rfl))).2.2.1
      (Or.inr ⟨rfl, rfl⟩) (by decide)).trans rfl,
   (Record_enqueues_iff (memWritten LogHijacked 60).logger (memWritten LogHijacked 60).world
      [192, 0, 2, 100] false 1 "example.com." ["192.0.2.1"] (Or.inr (Or.inr rfl))
      memClient noonClock LogHijacked 60 [oldEntry] (memWritten LogHijacked 60)
      (memWritten_reachable LogHijacked 60 (Or.inr rfl))).2.1 (Or.inr ⟨rfl, rfl⟩),
   rfl,
   (Record_enqueues_iff (memWritten LogHijacked 60).logger (memWritten LogHijacked 60).world
      [192, 0, 2, 100] true 1 "badhost1." ["0.0.0.0"] (Or.inr (Or.inr rfl))
      memClient noonClock LogHijacked 60 [oldEntry] (memWritten LogHijacked 60)
      (memWritten_reachable LogHijacked 60 (Or.inr rfl))).2.2.2.2.2.1 rfl⟩

/-- C4: in every state the logger can reach, the WaitGroup counter that Close waits on
is the number of entries in flight (in a send of Record that has not completed,
buffered in the queue, or held by the worker before its `Done`), and the entries
Record sent or is sending are, up to order, those already passed to `writeLog` plus
those still pending. So Close returns exactly when nothing is in flight, and then
every entry Record sent has been passed to `writeLog`; while something is in flight
Close stays blocked. Passing to `writeLog` is a call of the store given to NewLogger:
the only step that adds an entry to those passed is the worker's write of the entry
it holds, which applies that store's `writeLog` to the world and the entry and leaves
the world the store returns; that step is always open to a worker holding an unwritten
entry. The worker is never stuck: idle with an entry queued it can receive the oldest
one, after the write it can sweep, and after the sweep it can call `Done`, which never
panics and lowers the counter by one. In LogDiscard mode nothing is ever sent, no
worker exists, and Close returns in every reachable state; in every other mode a
worker exists. -/
theorem Close_drains_queue {σ : Type} (client : Client σ) (clock : σ → Time × σ)
    (mode : Int) (ttl : Duration) (w : σ) (s : Sys σ)
    (h : Reachable (Sys.init client clock mode ttl w) s) :
    s.logger.wg = s.inFlight.length ∧
      List.Perm s.offered (handed s.calls ++ s.pending) ∧
      (Close s.logger = some none ↔ s.inFlight = []) ∧
      (Close s.logger = none ↔ s.inFlight ≠ []) ∧
      (Close s.logger = some none → List.Perm s.offered (handed s.calls)) ∧
      (mode = LogDiscard →
        Close s.logger = some none ∧ s.offered = [] ∧ s.worker = Worker.absent) ∧
      s.logger.client = client ∧
      (∀ t, Step s t →
        handed t.calls = handed s.calls ∨
          ∃ e, s.worker = Worker.writing e ∧ t.worker = Worker.sweeping e ∧
            t.world = (client.writeLog s.world e).2 ∧
            t.calls = s.calls ++
              (match (client.writeLog s.world e).1 with
               | some err => [Call.writeLog e (some err), Call.logWriteFailed e err]
               | none => [Call.writeLog e none]) ∧
            handed t.calls = handed s.calls ++ [e]) ∧
      (∀ e, s.worker = Worker.writing e →
        ∃ t, Step s t ∧ t.world = (client.writeLog s.world e).2 ∧
          handed t.calls = handed s.calls ++ [e] ∧ t.pending = s.logger.queue.buf ++ s.senders) ∧
      s.worker ≠ Worker.crashed ∧
      (∀ e, s.worker = Worker.finishing e →
        workerDone s.logger = some { s.logger with wg := s.logger.wg - 1 }) ∧
      (∀ e rest, s.worker = Worker.idle → s.logger.queue.buf = e :: rest →
        ∃ t, Step s t ∧ t.worker = Worker.writing e ∧ t.logger.queue.buf = rest ∧
          t.logger.wg = s.logger.wg ∧ t.senders = s.senders) ∧
      (∀ e, s.worker = Worker.sweeping e → ∃ t, Step s t ∧ t.worker = Worker.finishing e) ∧
      (∀ e, s.worker = Worker.finishing e →
        ∃ t, Step s t ∧ t.worker = Worker.idle ∧ t.logger.wg + 1 = s.logger.wg ∧
          t.logger.queue = s.logger.queue ∧ t.senders = s.senders) ∧
      (mode ≠ LogDiscard → s.worker ≠ Worker.absent) := by
  have hinv := Inv_reachable client clock mode ttl w s h
  have hcl := (sweep_reachable client clock mode ttl w s h).2.1
  have hdone : ∀ e, s.worker = Worker.finishing e →
      s.logger.wg ≠ 0 ∧
        workerDone s.logger = some { s.logger with wg := s.logger.wg - 1 } := by
    intro e hw
    have hpos : s.logger.wg ≠ 0 := by
      rw [hinv.wg_eq]
      simp [Sys.inFlight, hw, Worker.held]
    exact ⟨hpos, by simp [workerDone, hpos]⟩
  have hwg := hinv.wg_eq
  have hclose : Close s.logger = some none ↔ s.inFlight = [] := by
    unfold Close
    rw [hwg]
    constructor
    · intro hc
      by_cases h0 : s.inFlight.length = 0
      · exact List.length_eq_zero.mp h0
      · simp [h0] at hc
    · intro hc
      simp [hc]
  have hpend : s.inFlight = [] → s.pending = [] := by
    intro h0
    simp only [Sys.inFlight, List.append_eq_nil] at h0
    obtain ⟨⟨hh, hb⟩, hs⟩ := h0
    have hu : s.worker.unwritten = [] := by
      cases hwk : s.worker <;> simp [hwk, Worker.held] at hh <;> rfl
    simp [Sys.pending, hu, hb, hs]
  refine ⟨hwg, hinv.perm, hclose, ?_, ?_, ?_, hcl, ?_, ?_, hinv.alive,
    fun e hw => (hdone e hw).2, ?_, ?_, ?_, hinv.started⟩
  · constructor
    · intro hc h0
      rw [hclose.mpr h0] at hc
      cases hc
    · intro hne
      unfold Close
      rw [hwg]
      have : s.inFlight.length ≠ 0 := by
        intro h0
        exact hne (List.length_eq_zero.mp h0)
      simp [this]
  · intro hc
    have hp := hinv.perm
    rw [hpend (hclose.mp hc), List.append_nil] at hp
    exact hp
  · intro hm
    have hoff := hinv.quiet hm
    have hp := hinv.perm
    rw [hoff] at hp
    have hnil := List.Perm.nil_eq hp
    have hpn : s.pending = [] := (List.append_eq_nil.mp hnil.symm).2
    have hab := hinv.discard hm
    refine ⟨hclose.mpr ?_, hoff, hab⟩
    simp only [Sys.pending, List.append_eq_nil] at hpn
    simp [Sys.inFlight, hab, Worker.held, hpn.1.2, hpn.2]
  · intro t hst
    rcases Step_effect s t hst with hsame | ⟨e, hw, hw2, hworld, hcalls⟩ |
      ⟨e, _, _, _, _, hcalls⟩ | ⟨e, _, hcalls⟩
    · exact Or.inl (by rw [hsame])
    · right
      rw [hcl] at hworld hcalls
      refine ⟨e, hw, hw2, hworld, hcalls, ?_⟩
      rw [hcalls, handed_append]
      rcases (client.writeLog s.world e).1 with _ | err <;> simp [handed]
    · left
      rw [hcalls, handed_append]
      rcases (s.logger.client.deleteLogBefore (s.logger.now s.world).2
          ((s.logger.now s.world).1.Add (-s.ttl))).1 with _ | err <;> simp [handed]
    · left
      rw [hcalls, handed_append]
      simp [handed]
  · intro e hw
    refine ⟨_, Step.write s e hw, ?_, ?_, ?_⟩
    · simp only [workerWrite_eq, hcl]
    · simp only [handed_append, handed_workerWrite]
    · simp [Sys.pending, Worker.unwritten]
  · intro e rest hidle hbuf
    refine ⟨_, Step.recv s e ⟨rest, s.logger.queue.cap⟩ hidle ?_, rfl, rfl, rfl, rfl⟩
    simp [Chan.recv, hbuf]
  · intro e hw
    exact ⟨_, Step.sweep s e hw, rfl⟩
  · intro e hw
    obtain ⟨hpos, hd⟩ := hdone e hw
    refine ⟨_, Step.done s e _ hw hd, rfl, ?_, rfl, rfl⟩
    simp only
    omega

theorem Close_drains_queue_witness :
    Reachable (Sys.init memClient noonClock LogAll 60 [oldEntry]) memDrained ∧
      Close memDrained.logger = some none ∧
      memDrained.offered = [memEntry] ∧
      memDrained.world = [memEntry] ∧
      List.Perm memDrained.offered (handed memDrained.calls) :=
  ⟨memDrained_reachable, rfl, rfl, rfl,
   (Close_drains_queue memClient noonClock LogAll 60 [oldEntry] memDrained
      memDrained_reachable).2.2.2.2.1 rfl⟩

/-- C5: for an entry the worker takes from the queue, with a positive retention the
calls on the store are `writeLog` for that entry followed by exactly one
`deleteLogBefore`, whose cut-off is the clock read after the write, minus the
retention, and the world left is the one that delete returns; with a zero or negative
retention the only call on the store is the `writeLog` and the world left is the one
it returns. Run over a queue whose entries are all counted in the WaitGroup, the
worker goes through the store exactly as the retention rule says, entry by entry:
same cut-offs, same final world, one delete per entry under a positive retention and
none otherwise; over an empty queue it makes no call and touches nothing. In every
state of the running logger, under a positive retention the deletes issued are as
many as the entries written, less the one whose sweep is due, and under a zero or
negative retention none was issued; the only step that issues a delete is the sweep
of the worker for the entry it has just written, with the clock read at that step. -/
theorem sweep_once_per_entry {σ : Type} (l : Logger σ) (ttl : Duration) (w : σ)
    (e : LogEntry) (client : Client σ) (clock : σ → Time × σ) (mode : Int)
    (ttl0 : Duration) (w0 : σ) (s : Sys σ)
    (hreach : Reachable (Sys.init client clock mode ttl0 w0) s) :
    (0 < ttl →
        (readQueueBody l ttl w e).2.2.filter Call.isStore =
            [Call.writeLog e (l.client.writeLog w e).1,
             Call.deleteLogBefore ((l.now (l.client.writeLog w e).2).1.Add (-ttl))
              (l.client.deleteLogBefore (l.now (l.client.writeLog w e).2).2
                ((l.now (l.client.writeLog w e).2).1.Add (-ttl))).1] ∧
          deleteCutoffs (readQueueBody l ttl w e).2.2 =
            [(l.now (l.client.writeLog w e).2).1.Add (-ttl)] ∧
          (readQueueBody l ttl w e).2.1 =
            (l.client.deleteLogBefore (l.now (l.client.writeLog w e).2).2
              ((l.now (l.client.writeLog w e).2).1.Add (-ttl))).2) ∧
      (ttl ≤ 0 →
        (readQueueBody l ttl w e).2.2.filter Call.isStore =
            [Call.writeLog e (l.client.writeLog w e).1] ∧
          deleteCutoffs (readQueueBody l ttl w e).2.2 = [] ∧
          (readQueueBody l ttl w e).2.1 = (l.client.writeLog w e).2) ∧
      (l.queue.buf.length ≤ l.wg →
        deleteCutoffs (readQueue l ttl w).2.2 =
            (sweepTrail l.client l.now ttl w l.queue.buf).1 ∧
          (readQueue l ttl w).2.1 = (sweepTrail l.client l.now ttl w l.queue.buf).2 ∧
          (deleteCutoffs (readQueue l ttl w).2.2).length =
            (if 0 < ttl then l.queue.buf.length else 0)) ∧
      (l.queue.buf = [] → readQueue l ttl w = (some l, w, [])) ∧
      (0 < ttl0 →
        (deleteCutoffs s.calls).length + s.worker.awaitingSweep = (handed s.calls).length) ∧
      (ttl0 ≤ 0 → deleteCutoffs s.calls = []) ∧
      (∀ t, Step s t →
        deleteCutoffs t.calls = deleteCutoffs s.calls ∨
          ∃ x, s.worker = Worker.sweeping x ∧ t.worker = Worker.finishing x ∧ 0 < ttl0 ∧
            t.world = (client.deleteLogBefore (clock s.world).2
              ((clock s.world).1.Add (-ttl0))).2 ∧
            deleteCutoffs t.calls =
              deleteCutoffs s.calls ++ [(clock s.world).1.Add (-ttl0)]) := by
  obtain ⟨httl, hcl, hnow, hpos, hnon⟩ := sweep_reachable client clock mode ttl0 w0 s hreach
  refine ⟨?_, ?_, ?_, ?_, hpos, hnon, ?_⟩
  · intro h
    refine ⟨?_, ?_, ?_⟩
    · rw [readQueueBody_store, if_pos h]
    · rw [readQueueBody_cutoffs, if_pos h]
    · rw [readQueueBody_eq, if_pos h]
  · intro h
    refine ⟨?_, ?_, ?_⟩
    · rw [readQueueBody_store, if_neg (not_lt.mpr h)]
    · rw [readQueueBody_cutoffs, if_neg (not_lt.mpr h)]
    · rw [readQueueBody_eq, if_neg (not_lt.mpr h)]
  · intro hlen
    obtain ⟨_, h2, h3, _, _⟩ :=
      readQueueFrom_facts l.client l.now ttl l.queue.buf l w rfl rfl rfl hlen
    refine ⟨h3, h2, ?_⟩
    rw [show readQueue l ttl w = readQueueFrom ttl l w l.queue.buf from rfl, h3,
      sweepTrail_length]
  · intro h
    simp [readQueue, h, readQueueFrom]
  · intro t hst
    rcases Step_effect s t hst with hsame | ⟨x, _, _, _, hcalls⟩ |
      ⟨x, hw, hw2, hp, hworld, hcalls⟩ | ⟨x, _, hcalls⟩
    · exact Or.inl (by rw [hsame])
    · left
      rw [hcalls, deleteCutoffs_append]
      rcases (s.logger.client.writeLog s.world x).1 with _ | err <;> simp [deleteCutoffs]
    · right
      rw [hcl, hnow, httl] at hworld hcalls
      rw [httl] at hp
      refine ⟨x, hw, hw2, hp, hworld, ?_⟩
      rw [hcalls, deleteCutoffs_append]
      rcases (client.deleteLogBefore (clock s.world).2 ((clock s.world).1.Add (-ttl0))).1
        with _ | err <;> simp [deleteCutoffs]
    · left
      rw [hcalls, deleteCutoffs_append]
      simp [deleteCutoffs]

theorem sweep_once_per_entry_witness :
    (0 : Duration) < 60 ∧
      (afterRecord (NewLogger memClient noonClock LogAll 60).1 [oldEntry]).queue.buf.length ≤
        (afterRecord (NewLogger memClient noonClock LogAll 60).1 [oldEntry]).wg ∧
      Reachable (Sys.init memClient noonClock LogAll 60 [oldEntry]) memDrained ∧
      readQueue (afterRecord (NewLogger memClient noonClock LogAll 60).1 [oldEntry]) 60
          [oldEntry] =
        (some { mode := LogAll, queue := ⟨[], 1024⟩, client := memClient, wg := 0,
                now := noonClock },
         [memEntry],
         [Call.writeLog memEntry none, Call.deleteLogBefore ⟨940, Location.UTC⟩ none,
          Call.wgDone]) ∧
      deleteCutoffs
          (readQueue (afterRecord (NewLogger memClient noonClock LogAll 60).1 [oldEntry]) 60
            [oldEntry]).2.2 = [⟨940, Location.UTC⟩] ∧
      (deleteCutoffs memDrained.calls).length + memDrained.worker.awaitingSweep =
        (handed memDrained.calls).length :=
  ⟨by decide, by decide, memDrained_reachable, rfl,
   ((sweep_once_per_entry (afterRecord (NewLogger memClient noonClock LogAll 60).1 [oldEntry])
      60 [oldEntry] memEntry memClient noonClock LogAll 60 [oldEntry] memDrained
      memDrained_reachable).2.2.1 (by decide)).1.trans rfl,
   (sweep_once_per_entry (afterRecord (NewLogger memClient noonClock LogAll 60).1 [oldEntry])
      60 [oldEntry] memEntry memClient noonClock LogAll 60 [oldEntry] memDrained
      memDrained_reachable).2.2.2.2.1 (by decide)⟩

theorem Record_ignores_client {σ : Type} (l : Logger σ) (c : Client σ) (w : σ) (remoteAddr : IP)
    (hijacked : Bool) (qtype : Nat) (question : String) (answers : List String) :
    Record { l with client := c } w remoteAddr hijacked qtype question answers =
      (match (Record l w remoteAddr hijacked qtype question answers).1 with
        | Outcome.returned l1 => Outcome.returned { l1 with client := c }
        | Outcome.blocked l1 e => Outcome.blocked { l1 with client := c } e,
       (Record l w remoteAddr hijacked qtype question answers).2) := by
  by_cases hf : l.mode = LogDiscard ∨ (l.mode = LogHijacked ∧ hijacked = false)
  · rw [Record_filtered l w remoteAddr hijacked qtype question answers hf,
      Record_filtered { l with client := c } w remoteAddr hijacked qtype question answers hf]
  · have h0 : l.mode ≠ LogDiscard := fun h0 => hf (Or.inl h0)
    have h1 : ¬ (l.mode = LogHijacked ∧ hijacked = false) := fun h1 => hf (Or.inr h1)
    by_cases hroom : l.queue.buf.length < l.queue.cap
    · rw [Record_room l w remoteAddr hijacked qtype question answers h0 h1 hroom,
        Record_room { l with client := c } w remoteAddr hijacked qtype question answers
          h0 h1 hroom]
    · rw [Record_full l w remoteAddr hijacked qtype question answers h0 h1 hroom,
        Record_full { l with client := c } w remoteAddr hijacked qtype question answers
          h0 h1 hroom]

/-- C6: whatever the store answers, the worker calls `writeLog` exactly once for a
queued entry; when that call fails the failure is reported, then the retention sweep
runs as it would otherwise, then `Done` is called; a failing `deleteLogBefore` is
reported and followed by `Done` as well. The world the body leaves is the one the last
store call returned. With a positive counter `Done` lowers it by one (with the counter
at zero it would panic). Run over a queue whose entries are all counted in the
WaitGroup, the worker passes every buffered entry to `writeLog` once, in order, calls
`Done` once per entry, ends with the queue empty and the counter lowered by the number
of entries, and leaves the store as the retention rule says. In the running logger the
worker never panics: when it reaches `Done` the counter is positive; and a worker
holding an unwritten entry can always take the write step, which leads to the sweep
whether or not the write fails. Record has no error result, and what it returns does
not depend on the store client. -/
theorem write_failure_contained {σ : Type} (l : Logger σ) (ttl : Duration) (w : σ)
    (e : LogEntry) (c : Client σ) (remoteAddr : IP) (hijacked : Bool) (qtype : Nat)
    (question : String) (answers : List String)
    (client : Client σ) (clock : σ → Time × σ) (mode : Int) (ttl0 : Duration) (w0 : σ)
    (s : Sys σ) (hreach : Reachable (Sys.init client clock mode ttl0 w0) s) :
    (readQueueBody l ttl w e).2.2 =
        (match (l.client.writeLog w e).1 with
          | some err => [Call.writeLog e (some err), Call.logWriteFailed e err]
          | none => [Call.writeLog e none]) ++
        (if 0 < ttl then
          match (l.client.deleteLogBefore (l.now (l.client.writeLog w e).2).2
              ((l.now (l.client.writeLog w e).2).1.Add (-ttl))).1 with
          | some err =>
            [Call.deleteLogBefore ((l.now (l.client.writeLog w e).2).1.Add (-ttl)) (some err),
             Call.logDeleteFailed ((l.now (l.client.writeLog w e).2).1.Add (-ttl)) err]
          | none =>
            [Call.deleteLogBefore ((l.now (l.client.writeLog w e).2).1.Add (-ttl)) none]
         else []) ++ [Call.wgDone] ∧
      (readQueueBody l ttl w e).2.1 =
        (if 0 < ttl then
          (l.client.deleteLogBefore (l.now (l.client.writeLog w e).2).2
            ((l.now (l.client.writeLog w e).2).1.Add (-ttl))).2
         else (l.client.writeLog w e).2) ∧
      (0 < l.wg → (readQueueBody l ttl w e).1 = some { l with wg := l.wg - 1 }) ∧
      (l.wg = 0 → (readQueueBody l ttl w e).1 = none) ∧
      (l.queue.buf.length ≤ l.wg →
        handed (readQueue l ttl w).2.2 = l.queue.buf ∧
          doneCount (readQueue l ttl w).2.2 = l.queue.buf.length ∧
          (readQueue l ttl w).1 =
            some { l with wg := l.wg - l.queue.buf.length,
                          queue := { l.queue with buf := [] } } ∧
          (readQueue l ttl w).2.1 = (sweepTrail l.client l.now ttl w l.queue.buf).2) ∧
      (Record { l with client := c } w remoteAddr hijacked qtype question answers).2 =
        (Record l w remoteAddr hijacked qtype question answers).2 ∧
      (Record { l with client := c } w remoteAddr hijacked qtype question answers).1.sent
          l.queue.buf.length =
        (Record l w remoteAddr hijacked qtype question answers).1.sent l.queue.buf.length ∧
      s.worker ≠ Worker.crashed ∧
      (∀ x, s.worker = Worker.finishing x →
        0 < s.logger.wg ∧
          workerDone s.logger = some { s.logger with wg := s.logger.wg - 1 }) ∧
      (∀ x, s.worker = Worker.writing x →
        ∃ t, Step s t ∧ t.worker = Worker.sweeping x ∧
          t.world = (client.writeLog s.world x).2 ∧
          t.calls = s.calls ++
            (match (client.writeLog s.world x).1 with
             | some err => [Call.writeLog x (some err), Call.logWriteFailed x err]
             | none => [Call.writeLog x none])) := by
  have hinv := Inv_reachable client clock mode ttl0 w0 s hreach
  have hcl := (sweep_reachable client clock mode ttl0 w0 s hreach).2.1
  have hbody := readQueueBody_eq l ttl w e
  refine ⟨?_, ?_, ?_, ?_, ?_, ?_, ?_, hinv.alive, ?_, ?_⟩
  · rw [hbody]
  · rw [hbody]
  · intro hpos
    rw [hbody]
    simp [Nat.pos_iff_ne_zero.mp hpos]
  · intro hz
    rw [hbody]
    simp [hz]
  · intro hlen
    obtain ⟨h1, h2, _, h4, h5⟩ :=
      readQueueFrom_facts l.client l.now ttl l.queue.buf l w rfl rfl rfl hlen
    exact ⟨h4, h5, h1, h2⟩
  · rw [Record_ignores_client]
  · rw [Record_ignores_client]
    cases (Record l w remoteAddr hijacked qtype question answers).1 <;> rfl
  · intro x hw
    have hpos : 0 < s.logger.wg := by
      rw [hinv.wg_eq]
      simp [Sys.inFlight, hw, Worker.held]
    exact ⟨hpos, by simp [workerDone, Nat.pos_iff_ne_zero.mp hpos]⟩
  · intro x hw
    refine ⟨_, Step.write s x hw, rfl, ?_, ?_⟩
    · simp only [workerWrite_eq, hcl]
    · simp only [workerWrite_eq, hcl]

theorem failingHeld_reachable :
    Reachable (Sys.init failingClient epochClock LogAll 60 ()) failingHeld := by
  have hrec : Sys.record (Sys.init failingClient epochClock LogAll 60 ())
      [192, 0, 2, 100] true 1 "badhost1." ["0.0.0.0"] =
      { logger := { mode := LogAll, queue := ⟨[epochEntry], 1024⟩, client := failingClient,
                    wg := 1, now := epochClock },
        world := (), ttl := 60, senders := [], worker := Worker.idle, calls := [],
        offered := [epochEntry] } := rfl
  have s1 := Reachable.step _ _ Reachable.start
    (Step.record (Sys.init failingClient epochClock LogAll 60 ())
      [192, 0, 2, 100] true 1 "badhost1." ["0.0.0.0"])
  rw [hrec] at s1
  exact Reachable.step _ _ s1 (Step.recv _ epochEntry ⟨[], 1024⟩ rfl rfl)

theorem write_failure_contained_witness :
    Reachable (Sys.init failingClient epochClock LogAll 60 ()) failingHeld ∧
      (afterRecord failingLogger ()).queue.buf.length ≤ (afterRecord failingLogger ()).wg ∧
      failingHeld.worker = Worker.writing epochEntry ∧
      readQueue (afterRecord failingLogger ()) 60 () =
        (some { mode := LogAll, queue := ⟨[], 1024⟩, client := failingClient, wg := 0,
                now := epochClock },
         (),
         [Call.writeLog epochEntry (some "database is locked"),
          Call.logWriteFailed epochEntry "database is locked",
          Call.deleteLogBefore ⟨-60, Location.UTC⟩ (some "database is locked"),
          Call.logDeleteFailed ⟨-60, Location.UTC⟩ "database is locked",
          Call.wgDone]) ∧
      handed (readQueue (afterRecord failingLogger ()) 60 ()).2.2 = [epochEntry] ∧
      (readQueueBody failingHeld.logger 60 () epochEntry).2.2 =
        [Call.writeLog epochEntry (some "database is locked"),
         Call.logWriteFailed epochEntry "database is locked",
         Call.deleteLogBefore ⟨-60, Location.UTC⟩ (some "database is locked"),
         Call.logDeleteFailed ⟨-60, Location.UTC⟩ "database is locked",
         Call.wgDone] ∧
      (readQueueBody failingHeld.logger 60 () epochEntry).1 =
        some { failingHeld.logger with wg := 0 } ∧
      (∃ t, Step failingHeld t ∧ t.worker = Worker.sweeping epochEntry ∧
        t.calls = [Call.writeLog epochEntry (some "database is locked"),
                   Call.logWriteFailed epochEntry "database is locked"]) :=
  ⟨failingHeld_reachable, by decide, rfl, rfl,
   ((write_failure_contained (afterRecord failingLogger ()) 60 () epochEntry unitClient
      [] false 0 "" [] failingClient epochClock LogAll 60 () failingHeld
      failingHeld_reachable).2.2.2.2.1 (by decide)).1.trans rfl,
   (write_failure_contained failingHeld.logger 60 () epochEntry unitClient
      [] false 0 "" [] failingClient epochClock LogAll 60 () failingHeld
      failingHeld_reachable).1.trans rfl,
   ((write_failure_contained failingHeld.logger 60 () epochEntry unitClient
      [] false 0 "" [] failingClient epochClock LogAll 60 () failingHeld
      failingHeld_reachable).2.2.1 (by decide)).trans rfl,
   (fun ⟨t, hst, hwk, _, hcalls⟩ => ⟨t, hst, hwk, hcalls.trans rfl⟩)
    ((write_failure_contained failingHeld.logger 60 () epochEntry unitClient
      [] false 0 "" [] failingClient epochClock LogAll 60 () failingHeld
      failingHeld_reachable).2.2.2.2.2.2.2.2.2 epochEntry rfl)⟩

end RunningLogger

/-! ## Read -/

section ReadFacts

theorem mem_firstRows_ids (rows : List logRow) (id : Int) :
    id ∈ (firstRows rows).map (fun r => r.ID) ↔ id ∈ rows.map (fun r => r.ID) := by
  induction rows with
  | nil => simp [firstRows]
  | cons r rs ih =>
    simp only [firstRows, List.map_cons, List.mem_cons]
    constructor
    · rintro (h | h)
      · exact Or.inl h
      · right
        apply ih.mp
        simp only [List.mem_map, List.mem_filter] at h ⊢
        obtain ⟨x, ⟨hx, _⟩, hid⟩ := h
        exact ⟨x, hx, hid⟩
    · rintro (h | h)
      · exact Or.inl h
      · by_cases hid : id = r.ID
        · exact Or.inl hid
        · right
          have := ih.mpr h
          simp only [List.mem_map, List.mem_filter] at this ⊢
          obtain ⟨x, hx, hxid⟩ := this
          refine ⟨x, ⟨hx, ?_⟩, hxid⟩
          simp only [decide_eq_true_eq]
          rw [hxid]
          exact hid

theorem firstRows_nodup (rows : List logRow) :
    ((firstRows rows).map (fun r => r.ID)).Nodup := by
  induction rows with
  | nil => simp [firstRows]
  | cons r rs ih =>
    simp only [firstRows, List.map_cons, List.nodup_cons]
    constructor
    · simp only [List.mem_map, List.mem_filter, decide_eq_true_eq]
      rintro ⟨x, ⟨_, hne⟩, hid⟩
      exact hne hid
    · exact List.Nodup.sublist (List.Sublist.map _ (List.filter_sublist _)) ih

theorem firstRows_snoc (rows : List logRow) (r : logRow) :
    firstRows (rows ++ [r]) =
      if r.ID ∈ rows.map (fun x => x.ID) then firstRows rows else firstRows rows ++ [r] := by
  induction rows with
  | nil => simp [firstRows]
  | cons x xs ih =>
    simp only [List.cons_append, firstRows, List.map_cons, List.mem_cons, List.append_eq]
    rw [ih]
    by_cases hmem : r.ID ∈ xs.map (fun x => x.ID)
    · rw [if_pos hmem, if_pos (Or.inr hmem)]
    · rw [if_neg hmem]
      by_cases hx : r.ID = x.ID
      · rw [if_pos (Or.inl hx)]
        simp [List.filter_append, hx]
      · rw [if_neg (not_or.mpr ⟨hx, hmem⟩)]
        simp [List.filter_append, hx]

theorem answersOf_snoc (id : Int) (rows : List logRow) (r : logRow) :
    answersOf id (rows ++ [r]) =
      answersOf id rows ++ (if r.ID = id ∧ r.Answer ≠ "" then [r.Answer] else []) := by
  unfold answersOf
  by_cases h1 : r.ID = id
  · by_cases h2 : r.Answer = ""
    · simp [List.filter_append, h1, h2]
    · simp [List.filter_append, h1, h2]
  · simp [List.filter_append, h1]

theorem answersOf_absent (id : Int) (rows : List logRow)
    (h : id ∉ rows.map (fun r => r.ID)) : answersOf id rows = [] := by
  unfold answersOf
  have : rows.filter (fun r => decide (r.ID = id)) = [] := by
    rw [List.filter_eq_nil_iff]
    intro x hx
    simp only [decide_eq_true_eq]
    intro hid
    exact h (List.mem_map.mpr ⟨x, hx, hid⟩)
  rw [this]
  rfl

theorem firstRows_length_le (rows : List logRow) : (firstRows rows).length ≤ rows.length := by
  induction rows with
  | nil => simp [firstRows]
  | cons r rs ih =>
    simp only [firstRows, List.length_cons]
    have := List.length_filter_le (fun x => decide (x.ID ≠ r.ID)) (firstRows rs)
    omega

theorem updateCell_snoc (f : LogEntry → LogEntry) (cells : List LogEntry) (e : LogEntry) :
    updateCell f cells.length (cells ++ [e]) = cells ++ [f e] := by
  induction cells with
  | nil => rfl
  | cons c rest ih => simp [updateCell, ih]

theorem updateCell_map (f : LogEntry → LogEntry) (g : logRow → LogEntry) (id : Int) :
    ∀ (rows : List logRow) (i : Nat), (rows.map (fun r => r.ID))[i]? = some id →
      (rows.map (fun r => r.ID)).Nodup →
      updateCell f i (rows.map g) = rows.map (fun x => if x.ID = id then f (g x) else g x) := by
  intro rows
  induction rows with
  | nil => intro i hi _; simp at hi
  | cons x xs ih =>
    intro i hi hnd
    simp only [List.map_cons, List.nodup_cons] at hnd
    cases i with
    | zero =>
      simp only [List.map_cons, List.getElem?_cons_zero, Option.some.injEq] at hi
      simp only [List.map_cons, updateCell, hi, if_true]
      congr 1
      apply List.map_congr_left
      intro y hy
      have hne : y.ID ≠ id := by
        intro hc
        apply hnd.1
        rw [hi, ← hc]
        exact List.mem_map.mpr ⟨y, hy, rfl⟩
      rw [if_neg hne]
    | succ j =>
      simp only [List.map_cons, List.getElem?_cons_succ] at hi
      have hmem : id ∈ xs.map (fun r => r.ID) := List.getElem?_mem hi
      have hne : x.ID ≠ id := by
        intro hc
        apply hnd.1
        rw [hc]
        exact hmem
      simp only [List.map_cons, updateCell, if_neg hne]
      rw [ih j hi hnd.2]

theorem mergeRows_snoc_new (rows : List logRow) (r : logRow)
    (h : r.ID ∉ rows.map (fun x => x.ID)) :
    mergeRows (rows ++ [r]) =
      mergeRows rows ++
        [{ Time := (Time.Unix r.Time 0).UTC, RemoteAddr := r.RemoteAddr,
           Hijacked := r.Hijacked, Qtype := r.Qtype, Question := r.Question,
           Answers := if r.Answer ≠ "" then [r.Answer] else [] }] := by
  unfold mergeRows
  rw [firstRows_snoc, if_neg h, List.map_append]
  congr 1
  · apply List.map_congr_left
    intro x hx
    have hne : ¬ (r.ID = x.ID ∧ r.Answer ≠ "") := by
      rintro ⟨hc, _⟩
      apply h
      rw [hc, ← mem_firstRows_ids]
      exact List.mem_map.mpr ⟨x, hx, rfl⟩
    simp only [mergedEntry, answersOf_snoc, if_neg hne, List.append_nil]
  · simp only [List.map_cons, List.map_nil, mergedEntry, answersOf_snoc,
      answersOf_absent r.ID rows h, List.nil_append, true_and]

theorem mergeRows_snoc_old (rows : List logRow) (r : logRow)
    (h : r.ID ∈ rows.map (fun x => x.ID)) :
    mergeRows (rows ++ [r]) =
      (firstRows rows).map (fun x =>
        if x.ID = r.ID then
          (if r.Answer ≠ "" then
            { mergedEntry rows x with Answers := (mergedEntry rows x).Answers ++ [r.Answer] }
           else mergedEntry rows x)
        else mergedEntry rows x) := by
  unfold mergeRows
  rw [firstRows_snoc, if_pos h]
  apply List.map_congr_left
  intro x _
  by_cases hx : x.ID = r.ID
  · rw [if_pos hx]
    by_cases ha : r.Answer = ""
    · simp [mergedEntry, answersOf_snoc, ha]
    · simp [mergedEntry, answersOf_snoc, ha, hx]
  · rw [if_neg hx]
    have hne : ¬ (r.ID = x.ID ∧ r.Answer ≠ "") := fun hc => hx hc.1.symm
    simp only [mergedEntry, answersOf_snoc, if_neg hne, List.append_nil]

theorem readRow_inv (cap : Nat) (done : List logRow) (st : ReadState) (r : logRow)
    (h : ReadInv cap done st) (hlt : done.length < cap) :
    ReadInv cap (done ++ [r]) (readRow st r) := by
  have hlen : (mergeRows done).length = (firstRows done).length := by
    simp [mergeRows]
  have hle := firstRows_length_le done
  obtain ⟨ids, heap, arr, c⟩ := st
  have harr : arr = 0 := h.arr_eq
  have hcap : c = cap := h.cap_eq
  have hheap : heap = [mergeRows done] := h.heap_eq
  subst harr hcap hheap
  have hnone := h.ids_none
  have hsome := h.ids_some
  simp only at hnone hsome
  cases hl : lookupID r.ID ids with
  | none =>
    have hnot : r.ID ∉ done.map (fun x => x.ID) := (hnone r.ID).mp hl
    have hroom : (mergeRows done).length < c := by
      rw [hlen]
      omega
    have hrow : readRow ⟨ids, [mergeRows done], 0, c⟩ r =
        ⟨(r.ID, ⟨0, (mergeRows done).length⟩) :: ids, [mergeRows (done ++ [r])], 0, c⟩ := by
      rw [mergeRows_snoc_new done r hnot]
      by_cases ha : r.Answer = ""
      · simp [readRow, hl, ReadState.append, ReadState.logEntries, hroom, ha]
      · simp [readRow, hl, ReadState.append, ReadState.logEntries, hroom, ha,
          ReadState.appendAnswer, updateCell_snoc]
    rw [hrow]
    constructor
    · rfl
    · rfl
    · rfl
    · intro id
      simp only [lookupID, List.map_append, List.map_cons, List.map_nil, List.mem_append,
        List.mem_singleton]
      by_cases hid : r.ID = id
      · simp [hid]
      · rw [if_neg hid, hnone id]
        constructor
        · intro hn hc
          rcases hc with hc | hc
          · exact hn hc
          · exact hid hc.symm
        · intro hn hc
          exact hn (Or.inl hc)
    · intro id p hp
      simp only [lookupID] at hp
      rw [firstRows_snoc, if_neg hnot, List.map_append]
      by_cases hid : r.ID = id
      · rw [if_pos hid] at hp
        cases hp
        refine ⟨rfl, ?_⟩
        simp [hlen, hid]
      · rw [if_neg hid] at hp
        obtain ⟨h1, h2⟩ := hsome id p hp
        refine ⟨h1, ?_⟩
        have hlt2 : p.idx < ((firstRows done).map (fun r => r.ID)).length := by
          by_contra hc
          rw [List.getElem?_eq_none (by omega)] at h2
          cases h2
        rw [List.getElem?_append_left hlt2]
        exact h2
  | some p =>
    obtain ⟨h1, h2⟩ := hsome r.ID p hl
    have hin : r.ID ∈ done.map (fun x => x.ID) := by
      by_contra hc
      rw [(hnone r.ID).mpr hc] at hl
      cases hl
    have hrow : readRow ⟨ids, [mergeRows done], 0, c⟩ r =
        ⟨ids, [mergeRows (done ++ [r])], 0, c⟩ := by
      rw [mergeRows_snoc_old done r hin]
      by_cases ha : r.Answer = ""
      · simp [readRow, hl, ha, mergeRows]
      · have hupd := updateCell_map
          (fun e => { e with Answers := e.Answers ++ [r.Answer] }) (mergedEntry done) r.ID
          (firstRows done) p.idx h2 (firstRows_nodup done)
        simp [readRow, hl, ha, ReadState.appendAnswer, h1, mergeRows, hupd]
    rw [hrow]
    constructor
    · rfl
    · rfl
    · rfl
    · intro id
      simp only
      rw [hnone id]
      simp only [List.map_append, List.map_cons, List.map_nil, List.mem_append,
        List.mem_singleton]
      constructor
      · intro hn hc
        rcases hc with hc | hc
        · exact hn hc
        · rw [hc] at hn
          exact hn hin
      · intro hn hc
        exact hn (Or.inl hc)
    · intro id q hq
      rw [firstRows_snoc, if_pos hin]
      exact hsome id q hq

theorem readLoop_inv (cap : Nat) (rest : List logRow) :
    ∀ (done : List logRow) (st : ReadState), ReadInv cap done st →
      done.length + rest.length ≤ cap →
      ReadInv cap (done ++ rest) (rest.foldl readRow st) := by
  induction rest with
  | nil =>
    intro done st h _
    simpa using h
  | cons r rs ih =>
    intro done st h hle
    simp only [List.length_cons] at hle
    have h1 := readRow_inv cap done st r h (by omega)
    have h2 := ih (done ++ [r]) (readRow st r) h1 (by simp; omega)
    simpa using h2

theorem firstRows_sublist (rows : List logRow) : (firstRows rows).Sublist rows := by
  induction rows with
  | nil => exact List.Sublist.slnil
  | cons r rs ih =>
    exact List.Sublist.cons₂ r ((List.filter_sublist _).trans ih)

theorem firstRows_find (rows : List logRow) :
    ∀ x ∈ firstRows rows, rows.find? (fun y => decide (y.ID = x.ID)) = some x := by
  induction rows with
  | nil => intro x hx; simp [firstRows] at hx
  | cons r rs ih =>
    intro x hx
    simp only [firstRows, List.mem_cons, List.mem_filter, decide_eq_true_eq] at hx
    rcases hx with hx | ⟨hx, hne⟩
    · subst hx
      simp
    · have : ¬ r.ID = x.ID := fun hc => hne hc.symm
      simp only [List.find?_cons, this, decide_False]
      exact ih x hx

/-- C2: when `readLog` returns rows, Read returns their merge: one entry per row that
is the first of its ID, in row order, carrying that row's time (as UTC), remote
address, hijacked flag, query type and question, and as answers the non-empty
answers of all rows with that ID, adjacent or not, in row order. The first rows are a
subsequence of the rows, have pairwise distinct IDs, cover every ID that occurs, and
each is the first row with its ID. When `readLog` fails, Read returns that error and
no entries. -/
theorem Read_merges_rows {σ : Type} (l : Logger σ) (w : σ) (n : Int) :
    (∀ rows w1, l.client.readLog w n = (Except.ok rows, w1) →
        Read l w n =
          (Except.ok ((firstRows rows).map (fun r =>
            { Time := (Time.Unix r.Time 0).UTC, RemoteAddr := r.RemoteAddr,
              Hijacked := r.Hijacked, Qtype := r.Qtype, Question := r.Question,
              Answers := ((rows.filter (fun x => decide (x.ID = r.ID))).map
                (fun x => x.Answer)).filter (fun a => decide (a ≠ "")) })), w1) ∧
          (firstRows rows).Sublist rows ∧
          ((firstRows rows).map (fun r => r.ID)).Nodup ∧
          (∀ id, id ∈ (firstRows rows).map (fun r => r.ID) ↔ id ∈ rows.map (fun r => r.ID)) ∧
          (∀ x ∈ firstRows rows, rows.find? (fun y => decide (y.ID = x.ID)) = some x)) ∧
      (∀ err w1, l.client.readLog w n = (Except.error err, w1) →
        Read l w n = (Except.error err, w1)) := by
  constructor
  · intro rows w1 hread
    refine ⟨?_, firstRows_sublist rows, firstRows_nodup rows,
      fun id => mem_firstRows_ids rows id, firstRows_find rows⟩
    have h0 : ReadInv rows.length [] ⟨[], [[]], 0, rows.length⟩ := by
      constructor
      · rfl
      · rfl
      · rfl
      · intro id; simp [lookupID]
      · intro id p hp; simp [lookupID] at hp
    have h1 := readLoop_inv rows.length rows [] _ h0 (by simp)
    simp only [List.nil_append] at h1
    simp only [Read, hread, ReadState.logEntries, h1.arr_eq, h1.heap_eq]
    rfl
  · intro err w1 hread
    simp only [Read, hread]

theorem Read_merges_rows_witness :
    rowsLogger.client.readLog () 3 = (Except.ok sampleRows, ()) ∧
      Read rowsLogger () 3 =
        (Except.ok
          [ { Time := ⟨1600000000000000000, Location.UTC⟩, RemoteAddr := [192, 0, 2, 100],
              Hijacked := false, Qtype := 1, Question := "example.com.",
              Answers := ["192.0.2.1", "192.0.2.2", "192.0.2.3"] },
            { Time := ⟨1600000005000000000, Location.UTC⟩, RemoteAddr := [192, 0, 2, 101],
              Hijacked := true, Qtype := 28, Question := "badhost1.", Answers := [] },
            { Time := ⟨1600000003000000000, Location.UTC⟩, RemoteAddr := [192, 0, 2, 102],
              Hijacked := true, Qtype := 1, Question := "badhost2.",
              Answers := ["0.0.0.0"] } ], ()) ∧
      Read rowsLogger () (-1) = (Except.error "negative count", ()) :=
  ⟨rfl,
   ((Read_merges_rows rowsLogger () 3).1 sampleRows () rfl).1.trans (by rfl),
   (Read_merges_rows rowsLogger () (-1)).2 "negative count" () rfl⟩

end ReadFacts

/-! ## Reply rendering -/

section ReplyFacts

theorem intercalate_go_append (sep : String) (rest : List String) :
    ∀ x acc : String,
      String.intercalate.go (x ++ acc) sep rest = x ++ String.intercalate.go acc sep rest := by
  induction rest with
  | nil => intro x acc; rfl
  | cons a as ih =>
    intro x acc
    simp only [String.intercalate.go]
    rw [String.append_assoc x acc sep, String.append_assoc x (acc ++ sep) a, ih]

theorem intercalate_cons_cons (sep a b : String) (rest : List String) :
    String.intercalate sep (a :: b :: rest) = a ++ sep ++ String.intercalate sep (b :: rest) := by
  simp only [String.intercalate, String.intercalate.go]
  exact intercalate_go_append sep rest (a ++ sep) b

theorem RR_String_A (ipString : IP → String) (name : String) (ip : IP) :
    RR.String ipString
        { Name := name, Ttl := 3600, Class := ClassINET, Rrtype := TypeA, Addr := ip } =
      name ++ "\t3600\tIN\tA\t" ++ ipString ip := by
  have h1 : toString (3600 : Nat) = "3600" := by decide
  have h2 : classString ClassINET = "IN" := by decide
  have h3 : typeString TypeA = "A" := by decide
  have h4 : "\t" ++ ("3600" ++ ("\t" ++ ("IN" ++ ("\t" ++ ("A" ++ "\t"))))) =
      "\t3600\tIN\tA\t" := by decide
  simp only [RR.String, h1, h2, h3]
  rw [← h4]
  simp only [String.append_assoc]

theorem RR_String_AAAA (ipString : IP → String) (name : String) (ip : IP) :
    RR.String ipString
        { Name := name, Ttl := 3600, Class := ClassINET, Rrtype := TypeAAAA, Addr := ip } =
      name ++ "\t3600\tIN\tAAAA\t" ++ ipString ip := by
  have h1 : toString (3600 : Nat) = "3600" := by decide
  have h2 : classString ClassINET = "IN" := by decide
  have h3 : typeString TypeAAAA = "AAAA" := by decide
  have h4 : "\t" ++ ("3600" ++ ("\t" ++ ("IN" ++ ("\t" ++ ("AAAA" ++ "\t"))))) =
      "\t3600\tIN\tAAAA\t" := by decide
  simp only [RR.String, h1, h2, h3]
  rw [← h4]
  simp only [String.append_assoc]

/-- C8: the rendering of `ReplyA(name, addrs...)` is the newline-join of one row per
address, in argument order, each row being the name, 3600, IN, A and the address
separated by tabs; for one address it is that row alone, and for more it is the
first row, one newline and the rendering of the remaining addresses, so no newline
follows the last row. The same holds for `ReplyAAAA` with AAAA. For test-host with
192.0.2.1 and 192.0.2.2 the rendering is the two expected rows. -/
theorem Reply_String_rows (ipString : IP → String) (name : String) (addrs : List IP)
    (a b : IP) (more : List IP) :
    (ReplyA name addrs).String ipString =
        String.intercalate "\n"
          (addrs.map (fun ip => name ++ "\t3600\tIN\tA\t" ++ ipString ip)) ∧
      (ReplyAAAA name addrs).String ipString =
        String.intercalate "\n"
          (addrs.map (fun ip => name ++ "\t3600\tIN\tAAAA\t" ++ ipString ip)) ∧
      (ReplyA name addrs).rr.length = addrs.length ∧
      (ReplyAAAA name addrs).rr.length = addrs.length ∧
      (ReplyA name [a]).String ipString = name ++ "\t3600\tIN\tA\t" ++ ipString a ∧
      (ReplyAAAA name [a]).String ipString = name ++ "\t3600\tIN\tAAAA\t" ++ ipString a ∧
      (ReplyA name (a :: b :: more)).String ipString =
        name ++ "\t3600\tIN\tA\t" ++ ipString a ++ "\n" ++
          (ReplyA name (b :: more)).String ipString ∧
      (ReplyAAAA name (a :: b :: more)).String ipString =
        name ++ "\t3600\tIN\tAAAA\t" ++ ipString a ++ "\n" ++
          (ReplyAAAA name (b :: more)).String ipString ∧
      (ReplyA "test-host" [[192, 0, 2, 1], [192, 0, 2, 2]]).String dottedQuad =
        "test-host\t3600\tIN\tA\t192.0.2.1\ntest-host\t3600\tIN\tA\t192.0.2.2" := by
  have hA : ∀ l : List IP, (ReplyA name l).String ipString =
      String.intercalate "\n" (l.map (fun ip => name ++ "\t3600\tIN\tA\t" ++ ipString ip)) := by
    intro l
    simp only [Reply.String, ReplyA, List.map_map]
    congr 1
    apply List.map_congr_left
    intro ip _
    exact RR_String_A ipString name ip
  have hAAAA : ∀ l : List IP, (ReplyAAAA name l).String ipString =
      String.intercalate "\n"
        (l.map (fun ip => name ++ "\t3600\tIN\tAAAA\t" ++ ipString ip)) := by
    intro l
    simp only [Reply.String, ReplyAAAA, List.map_map]
    congr 1
    apply List.map_congr_left
    intro ip _
    exact RR_String_AAAA ipString name ip
  refine ⟨hA addrs, hAAAA addrs, by simp [ReplyA], by simp [ReplyAAAA], ?_, ?_, ?_, ?_, ?_⟩
  · rw [hA]
    rfl
  · rw [hAAAA]
    rfl
  · rw [hA, hA]
    exact intercalate_cons_cons _ _ _ _
  · rw [hAAAA, hAAAA]
    exact intercalate_cons_cons _ _ _ _
  · decide

end ReplyFacts

/-! ## Hosts table -/

section HostsFacts
variable {α : Type} [DecidableEq α]

theorem addAddr_idem (addrs : List α) (a : α) : addAddr (addAddr addrs a) a = addAddr addrs a := by
  unfold addAddr
  by_cases h : a ∈ addrs
  · simp [h]
  · simp [h]

theorem Get_insert (t : Hosts α) (name : String) (a : α) (h : String) :
    (Hosts.insert t name a).Get h =
      if h = name then (addAddr (t.Get h).1 a, true) else t.Get h := by
  induction t with
  | nil =>
    by_cases hn : h = name
    · simp [Hosts.insert, Hosts.Get, hn, addAddr]
    · have hn2 : ¬ name = h := fun hc => hn hc.symm
      simp [Hosts.insert, Hosts.Get, hn, hn2]
  | cons kv rest ih =>
    obtain ⟨k, addrs⟩ := kv
    by_cases hk : k = name
    · by_cases hn : h = name
      · simp [Hosts.insert, Hosts.Get, hk, hn]
      · have hn2 : ¬ name = h := fun hc => hn hc.symm
        simp [Hosts.insert, Hosts.Get, hk, hn, hn2]
    · by_cases hkh : k = h
      · have hn : ¬ h = name := fun hc => hk (hkh.trans hc)
        simp [Hosts.insert, Hosts.Get, hk, hkh, hn]
      · simp only [Hosts.insert, hk, if_false, Hosts.Get, hkh]
        exact ih

theorem Get_names (p : Parser) (a : α) (h : String) (names : List String) :
    ∀ t : Hosts α,
      (names.foldl (fun acc name =>
          if name ∈ p.reserved then acc else Hosts.insert acc name a) t).Get h =
        if h ∈ names ∧ h ∉ p.reserved then (addAddr (t.Get h).1 a, true) else t.Get h := by
  induction names with
  | nil => intro t; simp
  | cons n ns ih =>
    intro t
    simp only [List.foldl_cons]
    rw [ih]
    by_cases hres : h ∈ p.reserved
    · have hstep : (if n ∈ p.reserved then t else Hosts.insert t n a).Get h = t.Get h := by
        by_cases hn : n ∈ p.reserved
        · simp [hn]
        · have hne : ¬ h = n := fun hc => hn (hc ▸ hres)
          simp [hn, Get_insert, hne]
      simp [hres, hstep]
    · by_cases hn : h = n
      · subst hn
        simp only [hres, if_false, Get_insert, if_true, addAddr_idem, List.mem_cons, true_or,
          not_false_eq_true, and_true]
        by_cases hmem : h ∈ ns
        · simp [hmem]
        · simp [hmem]
      · have hstep : (if n ∈ p.reserved then t else Hosts.insert t n a).Get h = t.Get h := by
          by_cases hnr : n ∈ p.reserved
          · simp [hnr]
          · simp [hnr, Get_insert, hn]
        simp [hstep, hn]

theorem Get_addLine (p : Parser) (t : Hosts α) (e : α × List String) (h : String) :
    (addLine p t e).Get h =
      if h ∈ e.2 ∧ h ∉ p.reserved then (addAddr (t.Get h).1 e.1, true) else t.Get h :=
  Get_names p e.1 h e.2 t

theorem Get_build (p : Parser) (h : String) (entries : List (α × List String)) :
    ∀ t : Hosts α,
      (entries.foldl (addLine p) t).Get h =
        if h ∈ p.reserved ∨
            (entries.filter (fun e => decide (h ∈ e.2))).map (fun e => e.1) = [] then
          t.Get h
        else
          (((entries.filter (fun e => decide (h ∈ e.2))).map (fun e => e.1)).foldl addAddr
            (t.Get h).1, true) := by
  induction entries with
  | nil => intro t; simp
  | cons e es ih =>
    intro t
    simp only [List.foldl_cons]
    rw [ih, Get_addLine]
    by_cases hres : h ∈ p.reserved
    · simp [hres]
    · by_cases hmem : h ∈ e.2
      · by_cases hnil : (es.filter (fun e => decide (h ∈ e.2))).map (fun e => e.1) = []
        · simp [hres, hmem, hnil]
        · simp [hres, hmem, hnil]
      · by_cases hnil : (es.filter (fun e => decide (h ∈ e.2))).map (fun e => e.1) = []
        · simp [hres, hmem, hnil]
        · simp [hres, hmem, hnil]

theorem foldl_addAddr (l : List α) :
    ∀ acc : List α,
      l.foldl addAddr acc = acc ++ (dedupFirst l).filter (fun b => decide (b ∉ acc)) := by
  induction l with
  | nil => intro acc; simp [dedupFirst]
  | cons a rest ih =>
    intro acc
    simp only [List.foldl_cons, dedupFirst]
    rw [ih]
    by_cases ha : a ∈ acc
    · simp only [addAddr, ha, if_true, List.filter_cons, decide_not, decide_True, Bool.not_true,
        Bool.false_eq_true, if_false, List.filter_filter]
      congr 1
      apply List.filter_congr
      intro b _
      by_cases hb : b ∈ acc
      · simp [hb]
      · have : b ≠ a := fun hc => hb (hc ▸ ha)
        simp [hb, this]
    · simp only [addAddr, ha, if_false, List.filter_cons, decide_not, decide_False,
        Bool.not_false, if_true, List.filter_filter, List.append_assoc, List.singleton_append]
      congr 2
      apply List.filter_congr
      intro b _
      by_cases hb : b ∈ acc
      · simp [hb]
      · by_cases hba : b = a
        · simp [hb, hba]
        · simp [hb, hba]

theorem foldl_addAddr_nil (l : List α) : l.foldl addAddr [] = dedupFirst l := by
  rw [foldl_addAddr]
  simp

theorem dedupFirst_eq_nil (l : List α) : dedupFirst l = [] ↔ l = [] := by
  cases l with
  | nil => simp [dedupFirst]
  | cons a rest => simp [dedupFirst]

/-- Lookup in the table built by a parser with the reserved set of `p`. -/
theorem Get_Parse (parseAddr : String → Option α) (p : Parser) (text : String) (h : String) :
    ∃ t, Parse parseAddr p (Except.ok text) = Except.ok t ∧
      t.Get h =
        if h ∈ p.reserved ∨ addressesOf h (validLines parseAddr text) = [] then ([], false)
        else (addressesOf h (validLines parseAddr text), true) := by
  refine ⟨_, rfl, ?_⟩
  rw [Get_build]
  simp only [addressesOf, dedupFirst_eq_nil, Hosts.Get, foldl_addAddr_nil]

theorem fieldsFrom_chars (cs : List Char) :
    ∀ cur : List Char, ∀ tok ∈ fieldsFrom cur cs, ∀ c ∈ tok.data, c ∈ cur ∨ c ∈ cs := by
  induction cs with
  | nil =>
    intro cur tok htok c hc
    by_cases hcur : cur = []
    · simp [fieldsFrom, hcur] at htok
    · simp only [fieldsFrom, hcur, if_false, List.mem_singleton] at htok
      subst htok
      exact Or.inl hc
  | cons x xs ih =>
    intro cur tok htok c hc
    by_cases hws : x.isWhitespace = true
    · by_cases hcur : cur = []
      · simp only [fieldsFrom, hws, if_true, hcur] at htok
        rcases ih [] tok htok c hc with h | h
        · cases h
        · exact Or.inr (List.mem_cons_of_mem _ h)
      · simp only [fieldsFrom, hws, if_true, hcur, if_false, List.mem_cons] at htok
        rcases htok with htok | htok
        · subst htok
          exact Or.inl hc
        · rcases ih [] tok htok c hc with h | h
          · cases h
          · exact Or.inr (List.mem_cons_of_mem _ h)
    · simp only [fieldsFrom, hws, if_false] at htok
      rcases ih (cur ++ [x]) tok htok c hc with h | h
      · simp only [List.mem_append, List.mem_singleton] at h
        rcases h with h | h
        · exact Or.inl h
        · exact Or.inr (h ▸ List.mem_cons_self _ _)
      · exact Or.inr (List.mem_cons_of_mem _ h)

theorem stripComment_no_hash (line : List Char) : '#' ∉ stripComment line := by
  unfold stripComment
  induction line with
  | nil => simp
  | cons c cs ih =>
    by_cases hc : c = '#'
    · simp [List.takeWhile, hc]
    · simp only [List.takeWhile, hc, ne_eq, not_false_eq_true, decide_True, List.mem_cons,
        not_or]
      exact ⟨fun h => hc h.symm, ih⟩

theorem parseLine_names {β : Type} (parseAddr : String → Option β) (line : List Char)
    (e : β × List String) (h : parseLine parseAddr line = some e) :
    ∀ n ∈ e.2, '#' ∉ n.data := by
  intro n hn hhash
  unfold parseLine at h
  split at h
  · rename_i addr name names heq
    cases hp : parseAddr addr with
    | none => simp [hp] at h
    | some ip =>
      simp only [hp, Option.map_some', Option.some.injEq] at h
      subst h
      have hmem : n ∈ fieldsFrom [] (stripComment line) := by
        rw [heq]
        exact List.mem_cons_of_mem _ hn
      rcases fieldsFrom_chars _ [] n hmem '#' hhash with hc | hc
      · cases hc
      · exact stripComment_no_hash line hc
  · cases h

theorem addressesOf_hash (parseAddr : String → Option α) (text : String) (h : String)
    (hhash : '#' ∈ h.data) : addressesOf h (validLines parseAddr text) = [] := by
  unfold addressesOf
  have : (validLines parseAddr text).filter (fun e => decide (h ∈ e.2)) = [] := by
    rw [List.filter_eq_nil_iff]
    intro e he
    simp only [decide_eq_true_eq]
    intro hmem
    unfold validLines at he
    obtain ⟨line, _, hline⟩ := List.mem_filterMap.mp he
    exact parseLine_names parseAddr line e hline h hmem hhash
  rw [this]
  rfl

theorem linesFrom_spec (cs : List Char) :
    ∀ cur : List Char, '\n' ∉ cur → Lines (cur ++ cs) (linesFrom cur cs) := by
  induction cs with
  | nil =>
    intro cur hcur
    rw [List.append_nil]
    exact Lines.last cur hcur
  | cons c cs ih =>
    intro cur hcur
    by_cases hc : c = '\n'
    · subst hc
      simp only [linesFrom, if_true]
      exact Lines.more cur cs _ hcur (ih [] (List.not_mem_nil _))
    · simp only [linesFrom, hc, if_false]
      have := ih (cur ++ [c]) (by
        simp only [List.mem_append, List.mem_singleton, not_or]
        exact ⟨hcur, fun h => hc h.symm⟩)
      simpa using this

theorem linesFrom_last (l : List Char) (hl : '\n' ∉ l) :
    ∀ cur : List Char, linesFrom cur l = [cur ++ l] := by
  induction l with
  | nil => intro cur; simp [linesFrom]
  | cons c cs ih =>
    intro cur
    simp only [List.mem_cons, not_or] at hl
    have hc : ¬ c = '\n' := fun h => hl.1 h.symm
    simp only [linesFrom, hc, if_false, ih hl.2]
    simp

theorem linesFrom_more (l rest : List Char) (hl : '\n' ∉ l) :
    ∀ cur : List Char, linesFrom cur (l ++ '\n' :: rest) = (cur ++ l) :: linesFrom [] rest := by
  induction l with
  | nil => intro cur; simp [linesFrom]
  | cons c cs ih =>
    intro cur
    simp only [List.mem_cons, not_or] at hl
    have hc : ¬ c = '\n' := fun h => hl.1 h.symm
    simp only [List.cons_append, linesFrom, hc, if_false, List.append_eq]
    rw [ih hl.2 (cur ++ [c])]
    simp

theorem Lines_iff (cs : List Char) (ls : List (List Char)) :
    Lines cs ls ↔ linesFrom [] cs = ls := by
  constructor
  · intro h
    induction h with
    | last l hl => simpa using linesFrom_last l hl []
    | more l rest ls hl _ ih =>
      rw [linesFrom_more l rest hl [], ih]
      simp
  · intro h
    rw [← h]
    exact linesFrom_spec cs [] (List.not_mem_nil _)

theorem Fields_cons_space (c : Char) (hc : c.isWhitespace = true) (cs : List Char)
    (toks : List String) (h : Fields cs toks) : Fields (c :: cs) toks := by
  cases h with
  | blank ws hws =>
    exact Fields.blank (c :: cs) (by
      intro x hx
      rcases List.mem_cons.mp hx with hx | hx
      · rw [hx]; exact hc
      · exact hws x hx)
  | token ws tok rest toks hws hne htok hrest hf =>
    exact Fields.token (c :: ws) tok rest toks (by
      intro x hx
      rcases List.mem_cons.mp hx with hx | hx
      · rw [hx]; exact hc
      · exact hws x hx) hne htok hrest hf

theorem fieldsFrom_spec (cs : List Char) :
    ∀ cur : List Char, (∀ c ∈ cur, c.isWhitespace = false) →
      Fields (cur ++ cs) (fieldsFrom cur cs) := by
  induction cs with
  | nil =>
    intro cur hcur
    by_cases hnil : cur = []
    · subst hnil
      exact Fields.blank [] (fun c hc => absurd hc (List.not_mem_nil _))
    · simp only [fieldsFrom, hnil, if_false]
      exact Fields.token [] cur [] [] (fun c hc => absurd hc (List.not_mem_nil _)) hnil hcur
        (fun c hc => by simp at hc) (Fields.blank [] (fun c hc => absurd hc (List.not_mem_nil _)))
  | cons c cs ih =>
    intro cur hcur
    have hrest := ih [] (fun x hx => absurd hx (List.not_mem_nil _))
    simp only [List.nil_append] at hrest
    by_cases hws : c.isWhitespace = true
    · by_cases hnil : cur = []
      · subst hnil
        simp only [fieldsFrom, hws, if_true, List.nil_append]
        exact Fields_cons_space c hws cs _ hrest
      · simp only [fieldsFrom, hws, if_true, hnil, if_false]
        have := Fields.token [] cur (c :: cs) _ (fun x hx => absurd hx (List.not_mem_nil _))
          hnil hcur (fun x hx => by
            simp only [List.head?_cons, Option.some.injEq] at hx
            rw [← hx]; exact hws)
          (Fields_cons_space c hws cs _ hrest)
        simpa using this
    · simp only [fieldsFrom, hws, if_false]
      have := ih (cur ++ [c]) (by
        intro x hx
        rcases List.mem_append.mp hx with hx | hx
        · exact hcur x hx
        · rw [List.mem_singleton.mp hx]
          simpa using hws)
      simpa using this

theorem fieldsFrom_skip (ws : List Char) (hws : ∀ c ∈ ws, c.isWhitespace = true)
    (cs : List Char) : fieldsFrom [] (ws ++ cs) = fieldsFrom [] cs := by
  induction ws with
  | nil => rfl
  | cons c rest ih =>
    have hc := hws c (List.mem_cons_self _ _)
    simp only [List.cons_append, fieldsFrom, hc, if_true]
    exact ih (fun x hx => hws x (List.mem_cons_of_mem _ hx))

theorem fieldsFrom_run (tok : List Char) (htok : ∀ c ∈ tok, c.isWhitespace = false)
    (cs : List Char) : ∀ cur : List Char, fieldsFrom cur (tok ++ cs) = fieldsFrom (cur ++ tok) cs := by
  induction tok with
  | nil => intro cur; simp
  | cons c rest ih =>
    intro cur
    have hc := htok c (List.mem_cons_self _ _)
    simp only [List.cons_append, fieldsFrom, hc, Bool.false_eq_true, if_false,
      List.append_eq]
    rw [ih (fun x hx => htok x (List.mem_cons_of_mem _ hx))]
    simp

theorem fieldsFrom_close (cur : List Char) (hcur : cur ≠ []) (rest : List Char)
    (hrest : ∀ c, rest.head? = some c → c.isWhitespace = true) :
    fieldsFrom cur rest = String.mk cur :: fieldsFrom [] rest := by
  cases rest with
  | nil => simp [fieldsFrom, hcur]
  | cons c cs =>
    have hc := hrest c rfl
    simp [fieldsFrom, hc, hcur]

theorem Fields_iff (cs : List Char) (toks : List String) :
    Fields cs toks ↔ fieldsFrom [] cs = toks := by
  constructor
  · intro h
    induction h with
    | blank ws hws =>
      have := fieldsFrom_skip ws hws []
      simpa [fieldsFrom] using this
    | token ws tok rest toks hws hne htok hrest _ ih =>
      rw [List.append_assoc, fieldsFrom_skip ws hws, fieldsFrom_run tok htok rest [],
        List.nil_append, fieldsFrom_close tok hne rest hrest, ih]
  · intro h
    rw [← h]
    have := fieldsFrom_spec cs [] (fun c hc => absurd hc (List.not_mem_nil _))
    simpa using this

theorem stripComment_spec (line : List Char) :
    '#' ∉ stripComment line ∧
      (stripComment line = line ∨ ∃ post, line = stripComment line ++ '#' :: post) := by
  refine ⟨stripComment_no_hash line, ?_⟩
  unfold stripComment
  induction line with
  | nil => exact Or.inl rfl
  | cons c cs ih =>
    by_cases hc : c = '#'
    · right
      exact ⟨cs, by simp [List.takeWhile, hc]⟩
    · rcases ih with ih | ⟨post, ih⟩
      · left
        simp only [List.takeWhile, hc, ne_eq, not_false_eq_true, decide_True]
        rw [ih]
      · right
        refine ⟨post, ?_⟩
        simp only [List.takeWhile, hc, ne_eq, not_false_eq_true, decide_True,
          List.cons_append]
        rw [← ih]

theorem mem_dedupFirst (l : List α) (a : α) : a ∈ dedupFirst l ↔ a ∈ l := by
  induction l with
  | nil => simp [dedupFirst]
  | cons b rest ih =>
    simp only [dedupFirst, List.mem_cons, List.mem_filter, decide_eq_true_eq, ih]
    constructor
    · rintro (h | ⟨h, _⟩)
      · exact Or.inl h
      · exact Or.inr h
    · rintro (h | h)
      · exact Or.inl h
      · by_cases hab : a = b
        · exact Or.inl hab
        · exact Or.inr ⟨h, hab⟩

theorem dedupFirst_snoc (l : List α) (a : α) :
    dedupFirst (l ++ [a]) = if a ∈ l then dedupFirst l else dedupFirst l ++ [a] := by
  rw [← foldl_addAddr_nil, List.foldl_append, foldl_addAddr_nil]
  simp only [List.foldl_cons, List.foldl_nil, addAddr, mem_dedupFirst]

theorem addresses_of_lines {β : Type} (parseAddr : String → Option β) (h : String)
    (ls : List (List Char)) :
    ((ls.filterMap (parseLine parseAddr)).filter (fun e => decide (h ∈ e.2))).map
        (fun e => e.1) =
      ls.filterMap (fun line =>
        match fieldsFrom [] (stripComment line) with
        | addr :: name :: names => if h ∈ name :: names then parseAddr addr else none
        | _ => none) := by
  induction ls with
  | nil => rfl
  | cons line rest ih =>
    rcases htok : fieldsFrom [] (stripComment line) with _ | ⟨addr, _ | ⟨name, names⟩⟩
    · simp only [List.filterMap_cons, parseLine, htok, ih]
    · simp only [List.filterMap_cons, parseLine, htok, ih]
    · rcases hp : parseAddr addr with _ | ip
      · simp only [List.filterMap_cons, parseLine, htok, hp, Option.map_none', ih, ite_self]
      · by_cases hmem : h ∈ name :: names
        · simp only [List.filterMap_cons, parseLine, htok, hp, Option.map_some', ih, hmem,
            if_true, List.filter_cons, decide_True, List.map_cons]
        · simp only [List.filterMap_cons, parseLine, htok, hp, Option.map_some', hmem,
            if_false, List.filter_cons, decide_False]
          exact ih

/-- C10: the permissive parser never fails on the content of a document, and lookup
in its table returns, for every hostname, the addresses of the valid lines listing
that hostname, in document order with duplicates eliminated, together with `true`;
it misses when no valid line lists the hostname. A line is valid, and lists its
hostnames, exactly when its tokens, taken after dropping everything from the first
`#` and splitting on whitespace, are an address token that parses followed by one or
more hostname tokens, and every one of those hostname tokens is listed. Lines, comment
stripping, tokens and duplicate elimination are what their descriptions say: the
lines are the text cut at each newline; stripping keeps the part before the first
`#`; the tokens are the maximal runs without whitespace; an address already recorded
is not recorded again and a new one goes last. A name containing `#` is never found.
In the test document, localhost maps to 127.0.0.1, ::1 and fe80::1%lo0, test2 on the
three-hostname line and ip6-localhost on a line with an inline comment are found,
while `#comment`, `#`, incomplete-line and nonexistent miss. -/
theorem permissive_Get (parseAddr : String → Option α) (text : String) (h : String)
    (line cs : List Char) (seen : List α) (a : α) :
    (∃ t, Parse parseAddr permissiveParser (Except.ok text) = Except.ok t ∧
        t.Get h =
          (if dedupFirst ((linesFrom [] text.data).filterMap (fun line =>
                match fieldsFrom [] (stripComment line) with
                | addr :: name :: names => if h ∈ name :: names then parseAddr addr else none
                | _ => none)) = [] then ([], false)
           else
            (dedupFirst ((linesFrom [] text.data).filterMap (fun line =>
                match fieldsFrom [] (stripComment line) with
                | addr :: name :: names => if h ∈ name :: names then parseAddr addr else none
                | _ => none)), true)) ∧
        ('#' ∈ h.data → t.Get h = ([], false))) ∧
      (∀ ls, Lines cs ls ↔ linesFrom [] cs = ls) ∧
      ('#' ∉ stripComment line ∧
        (stripComment line = line ∨ ∃ post, line = stripComment line ++ '#' :: post)) ∧
      (∀ toks, Fields cs toks ↔ fieldsFrom [] cs = toks) ∧
      (dedupFirst ([] : List α) = [] ∧
        dedupFirst (seen ++ [a]) =
          (if a ∈ seen then dedupFirst seen else dedupFirst seen ++ [a])) ∧
      (∃ t, Parse rawAddr permissiveParser (Except.ok testDocument) = Except.ok t ∧
        t.Get "localhost" = (["127.0.0.1", "::1", "fe80::1%lo0"], true) ∧
        t.Get "test2" = (["192.0.2.1"], true) ∧
        t.Get "ip6-localhost" = (["::1"], true) ∧
        t.Get "#comment" = ([], false) ∧ t.Get "#" = ([], false) ∧
        t.Get "incomplete-line" = ([], false) ∧
        t.Get "nonexistent" = ([], false)) := by
  refine ⟨?_, fun ls => Lines_iff cs ls, stripComment_spec line, fun toks => Fields_iff cs toks,
    ⟨rfl, dedupFirst_snoc seen a⟩, ?_⟩
  · obtain ⟨t, ht, hget⟩ := Get_Parse parseAddr permissiveParser text h
    have haddr : addressesOf h (validLines parseAddr text) =
        dedupFirst ((linesFrom [] text.data).filterMap (fun line =>
          match fieldsFrom [] (stripComment line) with
          | addr :: name :: names => if h ∈ name :: names then parseAddr addr else none
          | _ => none)) := by
      unfold addressesOf validLines
      rw [addresses_of_lines]
    refine ⟨t, ht, ?_, ?_⟩
    · rw [hget, haddr]
      simp [permissiveParser]
    · intro hhash
      rw [hget, addressesOf_hash parseAddr text h hhash]
      simp
  · exact ⟨_, rfl, by decide, by decide, by decide, by decide, by decide, by decide,
      by decide⟩

/-- C9: for every document, lookup in the table of the strict parser misses for each
of the twelve reserved hostnames, and for every other hostname returns what lookup in
the table of the permissive parser returns. With the lines `127.0.0.1 localhost` and
`192.0.2.1 test1 test2 test3`, strict lookup misses localhost and finds 192.0.2.1 for
test1, test2 and test3. -/
theorem strict_is_permissive_without_reserved (parseAddr : String → Option α)
    (text : String) (h : String) :
    DefaultParser.reserved =
        ["localhost", "localhost.localdomain", "local", "broadcasthost", "ip6-localhost",
         "ip6-loopback", "ip6-localnet", "ip6-mcastprefix", "ip6-allnodes",
         "ip6-allrouters", "ip6-allhosts", "0.0.0.0"] ∧
      (∃ strict permissive,
        Parse parseAddr DefaultParser (Except.ok text) = Except.ok strict ∧
        Parse parseAddr permissiveParser (Except.ok text) = Except.ok permissive ∧
        (h ∈ DefaultParser.reserved → strict.Get h = ([], false)) ∧
        (h ∉ DefaultParser.reserved → strict.Get h = permissive.Get h)) ∧
      (∃ strict,
        Parse rawAddr DefaultParser
            (Except.ok "127.0.0.1 localhost\n192.0.2.1 test1 test2 test3\n") =
          Except.ok strict ∧
        strict.Get "localhost" = ([], false) ∧
        strict.Get "test1" = (["192.0.2.1"], true) ∧
        strict.Get "test2" = (["192.0.2.1"], true) ∧
        strict.Get "test3" = (["192.0.2.1"], true)) := by
  refine ⟨rfl, ?_, ?_⟩
  · obtain ⟨ts, hts, hgs⟩ := Get_Parse parseAddr DefaultParser text h
    obtain ⟨tp, htp, hgp⟩ := Get_Parse parseAddr permissiveParser text h
    refine ⟨ts, tp, hts, htp, ?_, ?_⟩
    · intro hres
      rw [hgs]
      simp [hres]
    · intro hres
      rw [hgs, hgp]
      simp [hres, permissiveParser]
  · exact ⟨_, rfl, by decide, by decide, by decide, by decide⟩

end HostsFacts

/-! ## Resolver failover -/

section ProxyFacts

theorem Exchange_first_success (client : Msg → String → Except Error Msg) (query : Msg)
    (addr : String) (post : List String) (reply : Msg)
    (hok : client query addr = Except.ok reply) :
    ∀ pre : List String, (∀ a ∈ pre, ∃ err, client query a = Except.error err) →
      Exchange client query (pre ++ addr :: post) = (Except.ok reply, pre ++ [addr]) := by
  intro pre
  induction pre with
  | nil =>
    intro _
    simp [Exchange, hok]
  | cons a rest ih =>
    intro hfail
    obtain ⟨err, herr⟩ := hfail a (List.mem_cons_self _ _)
    have := ih (fun b hb => hfail b (List.mem_cons_of_mem _ hb))
    simp [Exchange, herr, this]

theorem Exchange_all_fail (client : Msg → String → Except Error Msg) (query : Msg) :
    ∀ upstreams : List String, (∀ a ∈ upstreams, ∃ err, client query a = Except.error err) →
      ∃ err, Exchange client query upstreams = (Except.error err, upstreams) := by
  intro upstreams
  induction upstreams with
  | nil =>
    intro _
    exact ⟨_, rfl⟩
  | cons a rest ih =>
    intro hfail
    obtain ⟨err, herr⟩ := hfail a (List.mem_cons_self _ _)
    obtain ⟨err2, h2⟩ := ih (fun b hb => hfail b (List.mem_cons_of_mem _ hb))
    exact ⟨err2, by simp [Exchange, herr, h2]⟩

/-- C3, as stated, fails: the query for `host1.` is not hijacked by `cachedProxy` and
its only resolver would answer 192.0.2.9, yet the fingerprint is in the cache, so no
resolver is consulted and the reply carries the cached answer 192.0.2.1, not the
answer of the first resolver whose exchange succeeds. -/
theorem cache_hit_skips_resolvers :
    cachedProxy.handler ⟨"host1.", TypeA⟩ = none ∧
      cachedProxy.resolvers = ["resolver1"] ∧
      cachedProxy.client failureQuery "resolver1" = Except.ok (host1Msg [192, 0, 2, 9]) ∧
      (ServeDNS cachedProxy failureQuery).hijacked = false ∧
      (ServeDNS cachedProxy failureQuery).consulted = [] ∧
      (ServeDNS cachedProxy failureQuery).reply.Answer = (ReplyA "host1" [[192, 0, 2, 1]]).rr ∧
      (ServeDNS cachedProxy failureQuery).reply.Answer ≠ (host1Msg [192, 0, 2, 9]).Answer ∧
      (ServeDNS cachedProxy failureQuery).reply ≠ host1Msg [192, 0, 2, 9] := by
  refine ⟨rfl, rfl, by rfl, by rfl, by rfl, by rfl, by decide, by decide⟩

/-- C3, amended: for a query with a question that is not hijacked and misses the
cache, the upstreams are consulted in list order up to the first whose exchange
succeeds, the reply is that upstream's answer and it is stored in the cache under
the fingerprint of the question; later upstreams are not consulted. When every
upstream fails, all were consulted in order and the reply has no answer, response
code server-failure and the id of the query. -/
theorem ServeDNS_failover (p : Proxy) (query : Msg) (q : Question) (qs : List Question)
    (hq : query.Question = q :: qs)
    (hpass : p.handler ⟨q.Name, q.Qtype⟩ = none)
    (hmiss : p.cacheGet ⟨q.Name, q.Qtype, q.Qclass⟩ = none) :
    (∀ pre addr post reply, p.resolvers = pre ++ addr :: post →
        (∀ a ∈ pre, ∃ err, p.client query a = Except.error err) →
        p.client query addr = Except.ok reply →
        (ServeDNS p query).reply = reply ∧
          (ServeDNS p query).consulted = pre ++ [addr] ∧
          (ServeDNS p query).stored = some (⟨q.Name, q.Qtype, q.Qclass⟩, reply) ∧
          (ServeDNS p query).hijacked = false) ∧
      ((∀ a ∈ p.resolvers, ∃ err, p.client query a = Except.error err) →
        (ServeDNS p query).reply.Answer = [] ∧
          (ServeDNS p query).reply.Rcode = RcodeServerFailure ∧
          (ServeDNS p query).reply.Id = query.Id ∧
          (ServeDNS p query).consulted = p.resolvers ∧
          (ServeDNS p query).stored = none) := by
  constructor
  · intro pre addr post reply hres hfail hok
    have hex := Exchange_first_success p.client query addr post reply hok pre hfail
    rw [← hres] at hex
    simp [ServeDNS, hq, hpass, hmiss, hex]
  · intro hfail
    obtain ⟨err, hex⟩ := Exchange_all_fail p.client query p.resolvers hfail
    simp [ServeDNS, hq, hpass, hmiss, hex]

theorem ServeDNS_failover_witness :
    (host1Msg [192, 0, 2, 2]).Question = [⟨"host1.", TypeA, ClassINET⟩] ∧
      (ServeDNS
          (testProxy ["resolver1", "resolver2"]
            (testClient [("resolver1", none), ("resolver2", some (host1Msg [192, 0, 2, 2]))]))
          (host1Msg [192, 0, 2, 2])).reply.Answer =
        [{ Name := "host1", Ttl := 3600, Class := ClassINET, Rrtype := TypeA,
           Addr := [192, 0, 2, 2] }] ∧
      (ServeDNS
          (testProxy ["resolver1", "resolver2"]
            (testClient [("resolver1", none), ("resolver2", some (host1Msg [192, 0, 2, 2]))]))
          (host1Msg [192, 0, 2, 2])).reply.Id = (host1Msg [192, 0, 2, 2]).Id ∧
      (ServeDNS
          (testProxy ["resolver1", "resolver2"]
            (testClient [("resolver1", none), ("resolver2", none)]))
          failureQuery).reply.Answer = [] ∧
      (ServeDNS
          (testProxy ["resolver1", "resolver2"]
            (testClient [("resolver1", none), ("resolver2", none)]))
          failureQuery).reply.Rcode = RcodeServerFailure :=
  have hsucc := (ServeDNS_failover
    (testProxy ["resolver1", "resolver2"]
      (testClient [("resolver1", none), ("resolver2", some (host1Msg [192, 0, 2, 2]))]))
    (host1Msg [192, 0, 2, 2]) ⟨"host1.", TypeA, ClassINET⟩ [] rfl rfl rfl).1
      ["resolver1"] "resolver2" [] (host1Msg [192, 0, 2, 2]) rfl
      (by intro a ha
          simp only [List.mem_singleton] at ha
          subst ha
          exact ⟨_, rfl⟩)
      rfl
  have hfail := (ServeDNS_failover
    (testProxy ["resolver1", "resolver2"]
      (testClient [("resolver1", none), ("resolver2", none)]))
    failureQuery ⟨"host1.", TypeA, ClassINET⟩ [] rfl rfl rfl).2
      (by intro a ha
          simp only [testProxy, List.mem_cons, List.mem_singleton, List.not_mem_nil,
            or_false] at ha
          rcases ha with ha | ha <;> subst ha <;> exact ⟨_, rfl⟩)
  ⟨rfl, by rw [hsucc.1]; rfl, by rw [hsucc.1], hfail.1, hfail.2.1⟩

end ProxyFacts

end Zdns
